import Mathlib

/-!
Verification of the LibAFL mutator library, token dictionary and shadow
allocator against their natural-language specification.

Shallow embedding conventions:
* a byte is a `Nat` (kept `< 256` where it matters, with explicit `% 256`
  at the points where the Rust code relies on `u8` wrap-around);
* a byte-vector input (`Vec<u8>`) is a `List Nat`;
* the PRNG is left abstract: every call `rand.below(n)` / `rand.between(lo,hi)`
  / `rand.choose(xs)` in the source becomes an explicit parameter of the
  embedded function, constrained in the theorems by the documented contract
  (`below(n) ∈ [0,n)`, `between(lo,hi) ∈ [lo,hi]`, `choose` picks an index);
* fallible code returns `Except`;
* native byte order is little-endian (the x86-64 target of the crate).
-/

/-- Result of a mutation, from `mutators/mod.rs`: `Mutated` or `Skipped`. -/
inductive MutationResult where
  | Mutated
  | Skipped
deriving DecidableEq, Repr

/-- `buffer_self_copy(data, from, to, len)` (mutations.rs:21): overlap-safe
`memmove` inside one buffer. `out[i] = data[from + (i-to)]` for `to ≤ i < to+len`,
`data[i]` elsewhere; the length never changes. -/
def buffer_self_copy (data : List Nat) (src dst len : Nat) : List Nat :=
  (List.range data.length).map fun i =>
    if dst ≤ i ∧ i < dst + len then data.getD (src + (i - dst)) 0 else data.getD i 0

/-- `buffer_copy(dst, src, from, to, len)` (mutations.rs:35): copy `len` bytes of
`src` starting at `from` into `dst` starting at `to`. -/
def buffer_copy (dst src : List Nat) (src_pos dst_pos len : Nat) : List Nat :=
  (List.range dst.length).map fun i =>
    if dst_pos ≤ i ∧ i < dst_pos + len then src.getD (src_pos + (i - dst_pos)) 0
    else dst.getD i 0

/-- `buffer_set(data, from, len, val)` (mutations.rs:53). -/
def buffer_set (data : List Nat) (start len val : Nat) : List Nat :=
  (List.range data.length).map fun i =>
    if start ≤ i ∧ i < start + len then val else data.getD i 0

/-- `Vec::resize(new_len, 0)`: truncate or pad with zeros. -/
def resizeZero (l : List Nat) (n : Nat) : List Nat :=
  if n ≤ l.length then l.take n else l ++ List.replicate (n - l.length) 0

/-- Write the byte string `bs` into `l` starting at index `i`
(the `copy_from_slice` pattern of the arithmetic/interesting mutators). -/
def setSlice (l : List Nat) (i : Nat) (bs : List Nat) : List Nat :=
  l.take i ++ bs ++ l.drop (i + bs.length)

theorem length_buffer_self_copy (data : List Nat) (s d len : Nat) :
    (buffer_self_copy data s d len).length = data.length := by
  simp [buffer_self_copy]

theorem length_buffer_copy (dst src : List Nat) (sp dp len : Nat) :
    (buffer_copy dst src sp dp len).length = dst.length := by
  simp [buffer_copy]

theorem length_buffer_set (data : List Nat) (s len v : Nat) :
    (buffer_set data s len v).length = data.length := by
  simp [buffer_set]

theorem length_resizeZero (l : List Nat) (n : Nat) :
    (resizeZero l n).length = n := by
  unfold resizeZero
  split <;> simp <;> omega

theorem length_setSlice (l : List Nat) (i : Nat) (bs : List Nat)
    (h : i + bs.length ≤ l.length) : (setSlice l i bs).length = l.length := by
  simp [setSlice]
  omega

/-- `locate_diffs` (mutations.rs:1429), loop body: fold over the zipped pair
list carrying the running index and the `(first_diff, last_diff)` accumulator. -/
def locate_diffs_go : List (Nat × Nat) → Nat → Int × Int → Int × Int
  | [], _, acc => acc
  | (x, y) :: rest, i, (f, l) =>
      locate_diffs_go rest (i + 1)
        (if x ≠ y then (if f < 0 then (i : Int) else f, (i : Int)) else (f, l))

/-- `locate_diffs(this, other)` (mutations.rs:1429): first and last positions
where the two byte strings differ over their common prefix, `-1` when none. -/
def locate_diffs (this other : List Nat) : Int × Int :=
  locate_diffs_go (this.zip other) 0 (-1, -1)

/-- Positions of the differing pairs in a zipped list, starting from index `i`,
in increasing order. -/
def pdiffs : List (Nat × Nat) → Nat → List Nat
  | [], _ => []
  | (x, y) :: rest, i => if x ≠ y then i :: pdiffs rest (i + 1) else pdiffs rest (i + 1)

/-- Positions (within the common prefix) at which the two byte strings differ,
in increasing order. -/
def diffPositions (this other : List Nat) : List Nat :=
  pdiffs (this.zip other) 0

theorem mem_pdiffs : ∀ (l : List (Nat × Nat)) (j i : Nat),
    i ∈ pdiffs l j ↔
      j ≤ i ∧ i - j < l.length ∧ (l.getD (i - j) (0, 0)).1 ≠ (l.getD (i - j) (0, 0)).2 := by
  intro l
  induction l with
  | nil => intro j i; simp [pdiffs]
  | cons hd rest ih =>
    intro j i
    obtain ⟨x, y⟩ := hd
    simp only [pdiffs]
    by_cases hxy : x ≠ y
    · simp only [if_pos hxy, List.mem_cons, ih (j + 1) i]
      constructor
      · rintro (rfl | ⟨h1, h2, h3⟩)
        · exact ⟨le_refl _, by simp, by simpa using hxy⟩
        · refine ⟨by omega, by simp; omega, ?_⟩
          have : i - j = (i - (j + 1)) + 1 := by omega
          simpa [this] using h3
      · rintro ⟨h1, h2, h3⟩
        rcases Nat.eq_or_lt_of_le h1 with rfl | hlt
        · left; rfl
        · right
          refine ⟨by omega, by simp at h2 ⊢; omega, ?_⟩
          have : i - j = (i - (j + 1)) + 1 := by omega
          rw [this] at h3
          simpa using h3
    · simp only [if_neg hxy, ih (j + 1) i]
      push_neg at hxy
      constructor
      · rintro ⟨h1, h2, h3⟩
        refine ⟨by omega, by simp; omega, ?_⟩
        have : i - j = (i - (j + 1)) + 1 := by omega
        simpa [this] using h3
      · rintro ⟨h1, h2, h3⟩
        rcases Nat.eq_or_lt_of_le h1 with rfl | hlt
        · simp [hxy] at h3
        · refine ⟨by omega, by simp at h2 ⊢; omega, ?_⟩
          have : i - j = (i - (j + 1)) + 1 := by omega
          rw [this] at h3
          simpa using h3

theorem pdiffs_pairwise : ∀ (l : List (Nat × Nat)) (j : Nat),
    (pdiffs l j).Pairwise (· < ·) := by
  intro l
  induction l with
  | nil => intro j; simp [pdiffs]
  | cons hd rest ih =>
    intro j
    obtain ⟨x, y⟩ := hd
    simp only [pdiffs]
    split
    · refine List.Pairwise.cons ?_ (ih (j + 1))
      intro b hb
      have := (mem_pdiffs rest (j + 1) b).mp hb
      omega
    · exact ih (j + 1)

theorem getLast?_cons_elim_irrel (a : Nat) (t : List Nat) (d1 d2 : Int) :
    ((a :: t).getLast?).elim d1 Nat.cast = ((a :: t).getLast?).elim d2 Nat.cast := by
  cases h : (a :: t).getLast? with
  | none => simp [List.getLast?_eq_none_iff] at h
  | some b => simp

theorem locate_diffs_go_pos : ∀ (l : List (Nat × Nat)) (i : Nat) (f l0 : Int), 0 ≤ f →
    locate_diffs_go l i (f, l0) =
      (f, ((pdiffs l i).getLast?).elim l0 (Nat.cast)) := by
  intro l
  induction l with
  | nil => intro i f l0 _; simp [locate_diffs_go, pdiffs]
  | cons hd rest ih =>
    intro i f l0 hf
    obtain ⟨x, y⟩ := hd
    simp only [locate_diffs_go, pdiffs]
    by_cases hxy : x ≠ y
    · rw [if_pos hxy, if_pos hxy, if_neg (by omega), ih (i + 1) f i hf]
      cases hrest : pdiffs rest (i + 1) with
      | nil => simp
      | cons a t => simp [List.getLast?_cons_cons, getLast?_cons_elim_irrel a t i l0]
    · rw [if_neg hxy, if_neg hxy, ih (i + 1) f l0 hf]

theorem locate_diffs_go_start : ∀ (l : List (Nat × Nat)) (i : Nat),
    locate_diffs_go l i (-1, -1) =
      match pdiffs l i with
      | [] => (-1, -1)
      | a :: t => ((a : Int), ((a :: t).getLast?).elim (-1) (Nat.cast)) := by
  intro l
  induction l with
  | nil => intro i; simp [locate_diffs_go, pdiffs]
  | cons hd rest ih =>
    intro i
    obtain ⟨x, y⟩ := hd
    simp only [locate_diffs_go, pdiffs]
    by_cases hxy : x ≠ y
    · rw [if_pos hxy, if_pos hxy, if_pos (by norm_num),
        locate_diffs_go_pos rest (i + 1) i i (by positivity)]
      cases hrest : pdiffs rest (i + 1) with
      | nil => simp
      | cons a t => simp [List.getLast?_cons_cons, getLast?_cons_elim_irrel a t i (-1)]
    · rw [if_neg hxy, if_neg hxy, ih (i + 1)]

/-- `locate_diffs` in terms of the ordered list of differing positions. -/
theorem locate_diffs_eq (this other : List Nat) :
    locate_diffs this other =
      match diffPositions this other with
      | [] => (-1, -1)
      | a :: t => ((a : Int), ((a :: t).getLast?).elim (-1) (Nat.cast)) := by
  unfold locate_diffs diffPositions
  exact locate_diffs_go_start (this.zip other) 0

theorem sorted_le_getLast : ∀ (l : List Nat), l.Pairwise (· < ·) →
    ∀ p ∈ l, ∀ b, l.getLast? = some b → p ≤ b := by
  intro l
  induction l with
  | nil => intro _ p hp; simp at hp
  | cons a t ih =>
    intro hpw p hp b hb
    cases t with
    | nil =>
      simp at hb hp
      omega
    | cons c t' =>
      rw [List.getLast?_cons_cons] at hb
      have hpw' := List.Pairwise.sublist (List.sublist_cons_self a (c :: t')) hpw
      rcases List.mem_cons.mp hp with rfl | hpt
      · have hb_mem : b ∈ c :: t' := List.mem_of_mem_getLast? hb
        have := (List.pairwise_cons.mp hpw).1 b hb_mem
        omega
      · exact ih hpw' p hpt b hb

/-- **C9.** `locate_diffs` returns `(min P, max P)` over the set `P` of positions
within the common prefix at which the two byte strings differ, `(-1, -1)` when
`P` is empty and `(p, p)` when `P = {p}`. -/
theorem C9_locate_diffs_min_max (this other : List Nat) :
    (∀ i : Nat, i ∈ diffPositions this other ↔
        i < min this.length other.length ∧ this.getD i 0 ≠ other.getD i 0) ∧
    (diffPositions this other = [] → locate_diffs this other = (-1, -1)) ∧
    (∀ p ∈ diffPositions this other,
        (locate_diffs this other).1 ≤ (p : Int) ∧ (p : Int) ≤ (locate_diffs this other).2) ∧
    (diffPositions this other ≠ [] →
        0 ≤ (locate_diffs this other).1 ∧
        (locate_diffs this other).1.toNat ∈ diffPositions this other ∧
        (locate_diffs this other).2.toNat ∈ diffPositions this other) ∧
    (∀ p : Nat, diffPositions this other = [p] →
        locate_diffs this other = ((p : Int), (p : Int))) := by
  have hmem : ∀ i : Nat, i ∈ diffPositions this other ↔
      i < min this.length other.length ∧ this.getD i 0 ≠ other.getD i 0 := by
    intro i
    unfold diffPositions
    rw [mem_pdiffs (this.zip other) 0 i]
    simp only [Nat.zero_le, Nat.sub_zero, true_and, List.length_zip]
    constructor
    · rintro ⟨h1, h2⟩
      have hi1 : i < this.length := by simp at h1; omega
      have hi2 : i < other.length := by simp at h1; omega
      refine ⟨by simp at h1 ⊢; omega, ?_⟩
      have h1' : i < (this.zip other).length := by simp; omega
      rw [List.getD_eq_getElem _ _ h1'] at h2
      rw [List.getD_eq_getElem _ _ hi1, List.getD_eq_getElem _ _ hi2]
      simpa [List.getElem_zip] using h2
    · rintro ⟨h1, h2⟩
      have hi1 : i < this.length := by omega
      have hi2 : i < other.length := by omega
      have hiz : i < (this.zip other).length := by simp; omega
      refine ⟨by simpa using hiz, ?_⟩
      rw [List.getD_eq_getElem _ _ hiz]
      rw [List.getD_eq_getElem _ _ hi1, List.getD_eq_getElem _ _ hi2] at h2
      simpa [List.getElem_zip] using h2
  have hsorted : (diffPositions this other).Pairwise (· < ·) :=
    pdiffs_pairwise (this.zip other) 0
  have heq := locate_diffs_eq this other
  refine ⟨hmem, ?_, ?_, ?_, ?_⟩
  · intro hP
    rw [heq, hP]
  · intro p hp
    cases hP : diffPositions this other with
    | nil => rw [hP] at hp; simp at hp
    | cons a t =>
      rw [hP] at hp heq hsorted
      rw [heq]
      constructor
      · rcases List.mem_cons.mp hp with rfl | hpt
        · simp
        · have := (List.pairwise_cons.mp hsorted).1 p hpt
          simp
          omega
      · cases hb : (a :: t).getLast? with
        | none => simp [List.getLast?_eq_none_iff] at hb
        | some b =>
          have := sorted_le_getLast (a :: t) hsorted p hp b hb
          simp [hb]
          omega
  · intro hP
    cases hPc : diffPositions this other with
    | nil => exact absurd hPc hP
    | cons a t =>
      rw [hPc] at heq
      rw [heq]
      cases hb : (a :: t).getLast? with
      | none => simp [List.getLast?_eq_none_iff] at hb
      | some b =>
        have hbm : b ∈ a :: t := List.mem_of_mem_getLast? hb
        refine ⟨by simp, by simp [hPc], ?_⟩
        simp only [Option.elim, hb, Int.toNat_natCast, hPc]
        exact hbm
  · intro p hP
    rw [heq, hP]
    simp

/-- The max value that will be added or subtracted during add mutations
(mutations.rs:61). -/
def ARITH_MAX : Nat := 35

/-- Interesting 8-bit values from AFL (mutations.rs:64). -/
def INTERESTING_8 : List Int := [-128, -1, 0, 1, 16, 32, 64, 100, 127]

/-- Interesting 16-bit values from AFL (mutations.rs:66). -/
def INTERESTING_16 : List Int :=
  [-128, -1, 0, 1, 16, 32, 64, 100, 127,
   -32768, -129, 128, 255, 256, 512, 1000, 1024, 4096, 32767]

/-- Interesting 32-bit values from AFL (mutations.rs:70). -/
def INTERESTING_32 : List Int :=
  [-128, -1, 0, 1, 16, 32, 64, 100, 127,
   -32768, -129, 128, 255, 256, 512, 1000, 1024, 4096, 32767,
   -2147483648, -100663046, -32769, 32768, 65535, 65536, 100663045, 2147483647]

/-- `<$size>::from_ne_bytes` for the little-endian (x86-64) targets of the
crate: value of a byte window, first byte least significant. -/
def fromLE : List Nat → Nat
  | [] => 0
  | b :: rest => b % 256 + 256 * fromLE rest

/-- `to_ne_bytes` (little-endian): `w` bytes of `n`, least significant first. -/
def toLE : Nat → Nat → List Nat
  | 0, _ => []
  | w + 1, n => n % 256 :: toLE w (n / 256)

/-- `<$size>::swap_bytes` on a `w`-byte value. -/
def swapBytesW (w n : Nat) : Nat := fromLE ((toLE w n).reverse)

/-- `BitFlipMutator::mutate` (mutations.rs:117): XOR one random bit of one
random byte. `bitSel = rand.choose(0..8)`, `byteIdx` indexes
`rand.choose(bytes_mut())`. -/
def bitFlipMutator_mutate (bitSel byteIdx : Nat) (input : List Nat) :
    MutationResult × List Nat :=
  if input.isEmpty then (.Skipped, input)
  else (.Mutated, input.set byteIdx (Nat.xor (input.getD byteIdx 0) (1 <<< bitSel)))

/-- `ByteFlipMutator::mutate` (mutations.rs:177): XOR a random byte with 0xFF. -/
def byteFlipMutator_mutate (byteIdx : Nat) (input : List Nat) :
    MutationResult × List Nat :=
  if input.isEmpty then (.Skipped, input)
  else (.Mutated, input.set byteIdx (Nat.xor (input.getD byteIdx 0) 0xff))

/-- `ByteIncMutator::mutate` (mutations.rs:235): `wrapping_add(1)` on a random byte. -/
def byteIncMutator_mutate (byteIdx : Nat) (input : List Nat) :
    MutationResult × List Nat :=
  if input.isEmpty then (.Skipped, input)
  else (.Mutated, input.set byteIdx ((input.getD byteIdx 0 + 1) % 256))

/-- `ByteDecMutator::mutate` (mutations.rs:294): `wrapping_sub(1)` on a random byte. -/
def byteDecMutator_mutate (byteIdx : Nat) (input : List Nat) :
    MutationResult × List Nat :=
  if input.isEmpty then (.Skipped, input)
  else (.Mutated, input.set byteIdx ((input.getD byteIdx 0 + 255) % 256))

/-- `ByteNegMutator::mutate` (mutations.rs:353): bitwise complement (`!byte`,
which on `u8` equals XOR with 0xFF) of a random byte. -/
def byteNegMutator_mutate (byteIdx : Nat) (input : List Nat) :
    MutationResult × List Nat :=
  if input.isEmpty then (.Skipped, input)
  else (.Mutated, input.set byteIdx (Nat.xor (input.getD byteIdx 0 % 256) 0xff))

/-- `ByteRandMutator::mutate` (mutations.rs:412): random byte value
(`rand.next() as u8`) at a random position. -/
def byteRandMutator_mutate (byteIdx rnd : Nat) (input : List Nat) :
    MutationResult × List Nat :=
  if input.isEmpty then (.Skipped, input)
  else (.Mutated, input.set byteIdx (rnd % 256))

/-- The `add_mutator_impl!` macro body (mutations.rs:456) for a `w`-byte word
(`w ∈ {1,2,4,8}` for Byte/Word/Dword/QwordAddMutator): read a window at
`index` as a native-endian word, add or subtract `num = 1 + rand.below(35)`
(possibly after a byte swap, per `opSel = rand.below(4)`), write back. -/
def addMutator_mutate (w index numSel opSel : Nat) (input : List Nat) :
    MutationResult × List Nat :=
  if input.length < w then (.Skipped, input)
  else
    let val := fromLE ((input.drop index).take w)
    let num := 1 + numSel
    let m := 2 ^ (8 * w)
    let newVal :=
      if opSel = 0 then (val + num) % m
      else if opSel = 1 then (val + (m - num % m)) % m
      else if opSel = 2 then swapBytesW w ((swapBytesW w val + num) % m)
      else swapBytesW w ((swapBytesW w val + (m - num % m)) % m)
    (.Mutated, setSlice input index (toLE w newVal))

/-- The `interesting_mutator_impl!` macro body (mutations.rs:543) for a `w`-byte
word and its interesting-values `table`: write `table[valSel]` (cast to the
word width) at index `idx`, in big- or little-endian order per `endSel`. -/
def interestingMutator_mutate (w : Nat) (table : List Int) (idx valSel endSel : Nat)
    (input : List Nat) : MutationResult × List Nat :=
  if input.length < w then (.Skipped, input)
  else
    let val := ((table.getD valSel 0) % ((2 : Int) ^ (8 * w))).toNat
    let new_bytes := if endSel = 0 then (toLE w val).reverse else toLE w val
    (.Mutated, setSlice input idx new_bytes)

/-- `BytesDeleteMutator::mutate` (mutations.rs:635): for inputs of size > 2,
drain the range `[off, off+len)` where `off = rand.below(size)` and
`len = rand.below(size - off)`. -/
def bytesDeleteMutator_mutate (off len : Nat) (input : List Nat) :
    MutationResult × List Nat :=
  if input.length ≤ 2 then (.Skipped, input)
  else (.Mutated, input.take off ++ input.drop (off + len))

/-- The shared `if size + len > max_size { .. }` clamping block of the
insertion-style mutators (mutations.rs:708, 780, 852, 1120, 1293;
token_mutations.rs:171): `none` means the mutator returns `Skipped`. -/
def clampInsertLen (maxSize size len0 : Nat) : Option Nat :=
  if size + len0 > maxSize then
    if maxSize > size then some (maxSize - size) else none
  else some len0

/-- `BytesExpandMutator::mutate` (mutations.rs:697): grow the vector by
`len = 1 + rand.below(16)` (clamped to `max_size`) at `off = rand.below(size+1)`
by resizing with zeros and shifting the tail `[off, size)` right by `len`. -/
def bytesExpandMutator_mutate (maxSize off lenSel : Nat) (input : List Nat) :
    MutationResult × List Nat :=
  let size := input.length
  match clampInsertLen maxSize size (1 + lenSel) with
  | none => (.Skipped, input)
  | some len =>
      (.Mutated, buffer_self_copy (resizeZero input (size + len)) off (off + len) (size - off))

/-- `BytesInsertMutator::mutate` (mutations.rs:766): like expand but the new
gap is filled with the existing byte `input[valIdx]`, `valIdx = rand.below(size)`. -/
def bytesInsertMutator_mutate (maxSize off lenSel valIdx : Nat) (input : List Nat) :
    MutationResult × List Nat :=
  let size := input.length
  if size = 0 then (.Skipped, input)
  else
    match clampInsertLen maxSize size (1 + lenSel) with
    | none => (.Skipped, input)
    | some len =>
        let val := input.getD valIdx 0
        (.Mutated,
          buffer_set (buffer_self_copy (resizeZero input (size + len)) off (off + len) (size - off))
            off len val)

/-- `BytesRandInsertMutator::mutate` (mutations.rs:841): like insert but the
gap is filled with a fresh random byte (`rand.next() as u8`); note the source
has no empty-input guard. -/
def bytesRandInsertMutator_mutate (maxSize off lenSel rnd : Nat) (input : List Nat) :
    MutationResult × List Nat :=
  let size := input.length
  match clampInsertLen maxSize size (1 + lenSel) with
  | none => (.Skipped, input)
  | some len =>
      (.Mutated,
        buffer_set (buffer_self_copy (resizeZero input (size + len)) off (off + len) (size - off))
          off len (rnd % 256))

/-- `BytesSetMutator::mutate` (mutations.rs:913): overwrite
`[off, off+len)` with the existing byte `input[valIdx]`,
`len = 1 + rand.below(min(16, size - off))`. -/
def bytesSetMutator_mutate (off lenSel valIdx : Nat) (input : List Nat) :
    MutationResult × List Nat :=
  if input.length = 0 then (.Skipped, input)
  else (.Mutated, buffer_set input off (1 + lenSel) (input.getD valIdx 0))

/-- `BytesRandSetMutator::mutate` (mutations.rs:977): overwrite
`[off, off+len)` with a fresh random byte. -/
def bytesRandSetMutator_mutate (off lenSel rnd : Nat) (input : List Nat) :
    MutationResult × List Nat :=
  if input.length = 0 then (.Skipped, input)
  else (.Mutated, buffer_set input off (1 + lenSel) (rnd % 256))

/-- `BytesCopyMutator::mutate` (mutations.rs:1041): overlap-safe copy of
`len = 1 + rand.below(size - max(from,to))` bytes from `from` to `to`. -/
def bytesCopyMutator_mutate (src dst lenSel : Nat) (input : List Nat) :
    MutationResult × List Nat :=
  if input.length ≤ 1 then (.Skipped, input)
  else (.Mutated, buffer_self_copy input src dst (1 + lenSel))

/-- `BytesInsertCopyMutator::mutate` (mutations.rs:1106): copy an existing
slice `[from, from+len)` into a new gap at `off`, growing the vector. -/
def bytesInsertCopyMutator_mutate (maxSize off lenSel srcFrom : Nat) (input : List Nat) :
    MutationResult × List Nat :=
  let size := input.length
  if size = 0 then (.Skipped, input)
  else
    match clampInsertLen maxSize size (1 + lenSel) with
    | none => (.Skipped, input)
    | some len =>
        let src := if size = len then 0 else srcFrom
        let resized := resizeZero input (size + len)
        let tmp := buffer_copy (List.replicate len 0) resized src 0 len
        let step := buffer_self_copy resized off (off + len) (size - off)
        (.Mutated, buffer_copy step tmp 0 off len)

/-- `BytesSwapMutator::mutate` (mutations.rs:1189): swap the slice
`[first, first+len)` with `[second, second+len)` through a scratch buffer. -/
def bytesSwapMutator_mutate (first second lenSel : Nat) (input : List Nat) :
    MutationResult × List Nat :=
  if input.length ≤ 1 then (.Skipped, input)
  else
    let len := 1 + lenSel
    let tmp := (input.drop first).take len
    (.Mutated, buffer_copy (buffer_self_copy input second first len) tmp 0 second len)

/-- `CrossoverInsertMutator::mutate` (mutations.rs:1257): insert a random
slice of another corpus entry at a random offset; `Skipped` when the entry
drawn is the current one or has fewer than 2 bytes. -/
def crossoverInsertMutator_mutate (maxSize : Nat) (corpus : List (List Nat))
    (current : Option Nat) (idx srcFrom off lenSel : Nat) (input : List Nat) :
    MutationResult × List Nat :=
  let size := input.length
  if current = some idx then (.Skipped, input)
  else
    let other := corpus.getD idx []
    if other.length < 2 then (.Skipped, input)
    else
      match clampInsertLen maxSize size (1 + lenSel) with
      | none => (.Skipped, input)
      | some len =>
          (.Mutated,
            buffer_copy
              (buffer_self_copy (resizeZero input (size + len)) off (off + len) (size - off))
              other srcFrom off len)

/-- `CrossoverReplaceMutator::mutate` (mutations.rs:1356): overwrite
`len = rand.below(min(other_size - from, size))` bytes at
`to = rand.below(size - len)` with the other entry's bytes from `from`. -/
def crossoverReplaceMutator_mutate (corpus : List (List Nat)) (current : Option Nat)
    (idx srcFrom lenSel toSel : Nat) (input : List Nat) : MutationResult × List Nat :=
  if input.length = 0 then (.Skipped, input)
  else if current = some idx then (.Skipped, input)
  else
    let other := corpus.getD idx []
    if other.length < 2 then (.Skipped, input)
    else (.Mutated, buffer_copy input other srcFrom toSel lenSel)

/-- The retry loop of `SpliceMutator::mutate` (mutations.rs:1483): evaluate
`locate_diffs` and accept when `first != last && first >= 0 && last >= 2`;
the counter allows 4 evaluations in total (`counter == 3` then skip). The
loop body is pure, so every round recomputes the same pair. -/
def splice_find_diffs (input other : List Nat) : Nat → Option (Nat × Nat)
  | 0 => none
  | fuel + 1 =>
      let fl := locate_diffs input other
      if fl.1 ≠ fl.2 ∧ 0 ≤ fl.1 ∧ 2 ≤ fl.2 then some (fl.1.toNat, fl.2.toNat)
      else splice_find_diffs input other fuel

/-- `SpliceMutator::mutate` (mutations.rs:1464): splice with another corpus
entry at `split_at = rand.between(first_diff, last_diff)`, replacing this
input's tail from `split_at` with the other entry's tail. -/
def spliceMutator_mutate (corpus : List (List Nat)) (current : Option Nat)
    (idx split_at : Nat) (input : List Nat) : MutationResult × List Nat :=
  if current = some idx then (.Skipped, input)
  else
    let other := corpus.getD idx []
    match splice_find_diffs input other 4 with
    | none => (.Skipped, input)
    | some _ => (.Mutated, input.take split_at ++ other.drop split_at)

/-- `TokenInsert::mutate` (token_mutations.rs:145): insert the bytes of
`tokens[tokenIdx]` at `off = rand.below(size+1)`, clamped to `max_size`.
A missing `Tokens` metadata and an empty token list both yield `Skipped`,
so the metadata is modelled as the (possibly empty) token list itself. -/
def tokenInsert_mutate (maxSize : Nat) (tokens : List (List Nat)) (tokenIdx off : Nat)
    (input : List Nat) : MutationResult × List Nat :=
  if tokens.isEmpty then (.Skipped, input)
  else
    let size := input.length
    let token := tokens.getD tokenIdx []
    match clampInsertLen maxSize size token.length with
    | none => (.Skipped, input)
    | some len =>
        (.Mutated,
          buffer_copy
            (buffer_self_copy (resizeZero input (size + len)) off (off + len) (size - off))
            token 0 off len)

/-- `TokenReplace::mutate` (token_mutations.rs:231): overwrite at
`off = rand.below(size)` with at most `min(|token|, size - off)` token bytes. -/
def tokenReplace_mutate (tokens : List (List Nat)) (tokenIdx off : Nat)
    (input : List Nat) : MutationResult × List Nat :=
  let size := input.length
  if size = 0 then (.Skipped, input)
  else if tokens.isEmpty then (.Skipped, input)
  else
    let token := tokens.getD tokenIdx []
    let len := if off + token.length > size then size - off else token.length
    (.Mutated, buffer_copy input token 0 off len)

/-- `CmpValues` (observers/cmp.rs): a captured comparison's operand pair,
tagged by width. -/
inductive CmpValues where
  | U8 (v0 v1 : Nat)
  | U16 (v0 v1 : Nat)
  | U32 (v0 v1 : Nat)
  | U64 (v0 v1 : Nat)
  | Bytes (v0 v1 : List Nat)
deriving DecidableEq, Repr

/-- Whether a `CmpValues` is the byte-string variant. -/
def CmpValues.isBytes : CmpValues → Bool
  | .Bytes _ _ => true
  | _ => false

/-- The `CmpValues::U8` scan of `I2SRandReplace::mutate`
(token_mutations.rs:346): walk the bytes from `off`, return the first
position holding `v0` (to be replaced by `v1`) or `v1` (replaced by `v0`). -/
def i2sFindU8 (v0 v1 : Nat) : List Nat → Nat → Option (Nat × Nat)
  | [], _ => none
  | c :: rest, i =>
      if c = v0 then some (i, v1)
      else if c = v1 then some (i, v0)
      else i2sFindU8 v0 v1 rest (i + 1)

/-- The integer-width scans of `I2SRandReplace::mutate`
(token_mutations.rs:359-445): at each position of `positions`, read a `w`-byte
native-endian word and compare it (also byte-swapped) against both operands;
on the first hit return the position and the replacement bytes. -/
def i2sScanW (w v0 v1 : Nat) (bytes : List Nat) : List Nat → Option (Nat × List Nat)
  | [] => none
  | i :: rest =>
      let val := fromLE ((bytes.drop i).take w)
      if val = v0 then some (i, toLE w v1)
      else if swapBytesW w val = v0 then some (i, toLE w (swapBytesW w v1))
      else if val = v1 then some (i, toLE w v0)
      else if swapBytesW w val = v1 then some (i, toLE w (swapBytesW w v0))
      else i2sScanW w v0 v1 bytes rest

/-- The decreasing-prefix matcher of the `CmpValues::Bytes` arm
(token_mutations.rs:448-463): the largest `s ≤ bound` with
`v[0..s] == bytes[i..i+s]`, if any. -/
def i2sMatchLen (v bytes : List Nat) (i : Nat) : Nat → Option Nat
  | 0 => none
  | s + 1 =>
      if v.take (s + 1) = (bytes.drop i).take (s + 1) then some (s + 1)
      else i2sMatchLen v bytes i s

/-- The `CmpValues::Bytes` outer loop of `I2SRandReplace::mutate`
(token_mutations.rs:446): at each position try prefixes of `v0` (replaced by
`v1` bytes) then prefixes of `v1` (replaced by `v0` bytes). The source never
sets `result = Mutated` in this arm, so the caller stays `Skipped`. -/
def i2sBytesScan (v0 v1 : List Nat) (bytes : List Nat) : List Nat → Option (List Nat)
  | [] => none
  | i :: rest =>
      match i2sMatchLen v0 bytes i (min v0.length (bytes.length - i)) with
      | some s => some (buffer_copy bytes v1 0 i s)
      | none =>
          match i2sMatchLen v1 bytes i (min v1.length (bytes.length - i)) with
          | some s => some (buffer_copy bytes v0 0 i s)
          | none => i2sBytesScan v0 v1 bytes rest

/-- `I2SRandReplace::mutate` (token_mutations.rs:314): pick the captured
comparison `cmps[idx]` and scan the input from `off = rand.below(size)` for a
window matching either operand (possibly byte-swapped); replace the first
match with the counterpart. A missing `CmpValuesMetadata` and an empty list
both yield `Skipped`, so the metadata is modelled as the list itself. -/
def i2sRandReplace_mutate (cmps : List CmpValues) (idx off : Nat) (input : List Nat) :
    MutationResult × List Nat :=
  let size := input.length
  if size = 0 then (.Skipped, input)
  else if cmps.isEmpty then (.Skipped, input)
  else
    let len := size
    match cmps.getD idx (CmpValues.U8 0 0) with
    | .U8 v0 v1 =>
        match i2sFindU8 v0 v1 (input.drop off) off with
        | none => (.Skipped, input)
        | some (p, r) => (.Mutated, input.set p r)
    | .U16 v0 v1 =>
        if 2 ≤ len then
          match i2sScanW 2 v0 v1 input (List.range' off (len - 1 - off)) with
          | none => (.Skipped, input)
          | some (i, bs) => (.Mutated, setSlice input i bs)
        else (.Skipped, input)
    | .U32 v0 v1 =>
        if 4 ≤ len then
          match i2sScanW 4 v0 v1 input (List.range' off (len - 3 - off)) with
          | none => (.Skipped, input)
          | some (i, bs) => (.Mutated, setSlice input i bs)
        else (.Skipped, input)
    | .U64 v0 v1 =>
        if 8 ≤ len then
          match i2sScanW 8 v0 v1 input (List.range' off (len - 7 - off)) with
          | none => (.Skipped, input)
          | some (i, bs) => (.Mutated, setSlice input i bs)
        else (.Skipped, input)
    | .Bytes v0 v1 =>
        match i2sBytesScan v0 v1 input (List.range' off (len - off)) with
        | none => (.Skipped, input)
        | some out => (.Skipped, out)

theorem length_toLE (w n : Nat) : (toLE w n).length = w := by
  induction w generalizing n with
  | zero => simp [toLE]
  | succ w ih => simp [toLE, ih]

theorem clampInsertLen_some {maxSize size len0 len : Nat}
    (h : clampInsertLen maxSize size len0 = some len) : size + len ≤ maxSize := by
  unfold clampInsertLen at h
  split at h
  · split at h
    · simp at h; omega
    · simp at h
  · simp at h; omega

theorem i2sScanW_some {w v0 v1 : Nat} {bytes : List Nat} :
    ∀ {ps : List Nat} {i : Nat} {bs : List Nat},
      i2sScanW w v0 v1 bytes ps = some (i, bs) → i ∈ ps ∧ bs.length = w := by
  intro ps
  induction ps with
  | nil => intro i bs h; simp [i2sScanW] at h
  | cons a rest ih =>
    intro i bs h
    simp only [i2sScanW] at h
    split at h
    · simp at h; exact ⟨by simp [h.1], by rw [← h.2, length_toLE]⟩
    · split at h
      · simp at h; exact ⟨by simp [h.1], by rw [← h.2, length_toLE]⟩
      · split at h
        · simp at h; exact ⟨by simp [h.1], by rw [← h.2, length_toLE]⟩
        · split at h
          · simp at h; exact ⟨by simp [h.1], by rw [← h.2, length_toLE]⟩
          · have := ih h
            exact ⟨List.mem_cons_of_mem a this.1, this.2⟩

theorem i2sBytesScan_some {v0 v1 bytes : List Nat} :
    ∀ {ps : List Nat} {out : List Nat},
      i2sBytesScan v0 v1 bytes ps = some out → out.length = bytes.length := by
  intro ps
  induction ps with
  | nil => intro out h; simp [i2sBytesScan] at h
  | cons a rest ih =>
    intro out h
    simp only [i2sBytesScan] at h
    split at h
    · simp at h; rw [← h, length_buffer_copy]
    · split at h
      · simp at h; rw [← h, length_buffer_copy]
      · exact ih h

/-- Amended per-mutation safety contract: the output respects `max_size`, and
a `Skipped` result leaves the input untouched. -/
abbrev MutatorSafe (maxSize : Nat) (input : List Nat)
    (r : MutationResult × List Nat) : Prop :=
  r.2.length ≤ maxSize ∧ (r.1 = MutationResult.Skipped → r.2 = input)

/-- **C1 (amended).** For every mutator in the library and every input `I` with
`|I| ≤ max_size` (for `SpliceMutator` also requiring the spliced corpus entry
to respect `max_size`, and the split point to lie in the common prefix, as the
`between` contract guarantees): the output satisfies `|I'| ≤ max_size`, and a
`Skipped` result leaves the input byte-for-byte unchanged — except for
`I2SRandReplace`'s `CmpValues::Bytes` branch, which can alter the input while
still reporting `Skipped` (the source never sets `result = Mutated` there);
a `Mutated` result does not guarantee that the input changed. -/
theorem C1_mutator_safety_amended (maxSize : Nat) (input : List Nat)
    (hin : input.length ≤ maxSize) :
    (∀ bitSel byteIdx,
      MutatorSafe maxSize input (bitFlipMutator_mutate bitSel byteIdx input)) ∧
    (∀ byteIdx, MutatorSafe maxSize input (byteFlipMutator_mutate byteIdx input)) ∧
    (∀ byteIdx, MutatorSafe maxSize input (byteIncMutator_mutate byteIdx input)) ∧
    (∀ byteIdx, MutatorSafe maxSize input (byteDecMutator_mutate byteIdx input)) ∧
    (∀ byteIdx, MutatorSafe maxSize input (byteNegMutator_mutate byteIdx input)) ∧
    (∀ byteIdx rnd, MutatorSafe maxSize input (byteRandMutator_mutate byteIdx rnd input)) ∧
    (∀ w index numSel opSel, index + w ≤ input.length →
      MutatorSafe maxSize input (addMutator_mutate w index numSel opSel input)) ∧
    (∀ w table idx valSel endSel, idx + w ≤ input.length →
      MutatorSafe maxSize input (interestingMutator_mutate w table idx valSel endSel input)) ∧
    (∀ off len, MutatorSafe maxSize input (bytesDeleteMutator_mutate off len input)) ∧
    (∀ off lenSel,
      MutatorSafe maxSize input (bytesExpandMutator_mutate maxSize off lenSel input)) ∧
    (∀ off lenSel valIdx,
      MutatorSafe maxSize input (bytesInsertMutator_mutate maxSize off lenSel valIdx input)) ∧
    (∀ off lenSel rnd,
      MutatorSafe maxSize input (bytesRandInsertMutator_mutate maxSize off lenSel rnd input)) ∧
    (∀ off lenSel valIdx,
      MutatorSafe maxSize input (bytesSetMutator_mutate off lenSel valIdx input)) ∧
    (∀ off lenSel rnd,
      MutatorSafe maxSize input (bytesRandSetMutator_mutate off lenSel rnd input)) ∧
    (∀ src dst lenSel,
      MutatorSafe maxSize input (bytesCopyMutator_mutate src dst lenSel input)) ∧
    (∀ off lenSel srcFrom,
      MutatorSafe maxSize input (bytesInsertCopyMutator_mutate maxSize off lenSel srcFrom input)) ∧
    (∀ first second lenSel,
      MutatorSafe maxSize input (bytesSwapMutator_mutate first second lenSel input)) ∧
    (∀ corpus current idx srcFrom off lenSel,
      MutatorSafe maxSize input
        (crossoverInsertMutator_mutate maxSize corpus current idx srcFrom off lenSel input)) ∧
    (∀ corpus current idx srcFrom lenSel toSel,
      MutatorSafe maxSize input
        (crossoverReplaceMutator_mutate corpus current idx srcFrom lenSel toSel input)) ∧
    (∀ (corpus : List (List Nat)) current idx split_at,
      split_at ≤ input.length → split_at ≤ (corpus.getD idx []).length →
      (corpus.getD idx []).length ≤ maxSize →
      MutatorSafe maxSize input (spliceMutator_mutate corpus current idx split_at input)) ∧
    (∀ tokens tokenIdx off,
      MutatorSafe maxSize input (tokenInsert_mutate maxSize tokens tokenIdx off input)) ∧
    (∀ tokens tokenIdx off,
      MutatorSafe maxSize input (tokenReplace_mutate tokens tokenIdx off input)) ∧
    (∀ cmps idx off,
      (i2sRandReplace_mutate cmps idx off input).2.length ≤ maxSize ∧
      ((cmps.getD idx (CmpValues.U8 0 0)).isBytes = false →
        (i2sRandReplace_mutate cmps idx off input).1 = MutationResult.Skipped →
        (i2sRandReplace_mutate cmps idx off input).2 = input)) := by
  refine ⟨?_, ?_, ?_, ?_, ?_, ?_, ?_, ?_, ?_, ?_, ?_, ?_, ?_, ?_, ?_, ?_, ?_, ?_,
    ?_, ?_, ?_, ?_, ?_⟩
  · intro bitSel byteIdx
    unfold bitFlipMutator_mutate
    split
    · exact ⟨hin, fun _ => rfl⟩
    · exact ⟨by simpa using hin, fun h => nomatch h⟩
  · intro byteIdx
    unfold byteFlipMutator_mutate
    split
    · exact ⟨hin, fun _ => rfl⟩
    · exact ⟨by simpa using hin, fun h => nomatch h⟩
  · intro byteIdx
    unfold byteIncMutator_mutate
    split
    · exact ⟨hin, fun _ => rfl⟩
    · exact ⟨by simpa using hin, fun h => nomatch h⟩
  · intro byteIdx
    unfold byteDecMutator_mutate
    split
    · exact ⟨hin, fun _ => rfl⟩
    · exact ⟨by simpa using hin, fun h => nomatch h⟩
  · intro byteIdx
    unfold byteNegMutator_mutate
    split
    · exact ⟨hin, fun _ => rfl⟩
    · exact ⟨by simpa using hin, fun h => nomatch h⟩
  · intro byteIdx rnd
    unfold byteRandMutator_mutate
    split
    · exact ⟨hin, fun _ => rfl⟩
    · exact ⟨by simpa using hin, fun h => nomatch h⟩
  · intro w index numSel opSel hidx
    unfold addMutator_mutate
    split
    · exact ⟨hin, fun _ => rfl⟩
    · refine ⟨?_, fun h => nomatch h⟩
      have hl := length_setSlice input index
        (toLE w (if opSel = 0 then
            (fromLE ((input.drop index).take w) + (1 + numSel)) % 2 ^ (8 * w)
          else if opSel = 1 then
            (fromLE ((input.drop index).take w) + (2 ^ (8 * w) - (1 + numSel) % 2 ^ (8 * w))) %
              2 ^ (8 * w)
          else if opSel = 2 then
            swapBytesW w ((swapBytesW w (fromLE ((input.drop index).take w)) + (1 + numSel)) %
              2 ^ (8 * w))
          else
            swapBytesW w ((swapBytesW w (fromLE ((input.drop index).take w)) +
              (2 ^ (8 * w) - (1 + numSel) % 2 ^ (8 * w))) % 2 ^ (8 * w))))
        (by rw [length_toLE]; omega)
      simpa [hl] using hin
  · intro w table idx valSel endSel hidx
    unfold interestingMutator_mutate
    split
    · exact ⟨hin, fun _ => rfl⟩
    · refine ⟨?_, fun h => nomatch h⟩
      rw [length_setSlice input idx _
        (by split <;> simp only [List.length_reverse, length_toLE] <;> omega)]
      exact hin
  · intro off len
    unfold bytesDeleteMutator_mutate
    split
    · exact ⟨hin, fun _ => rfl⟩
    · refine ⟨?_, fun h => nomatch h⟩
      simp only [List.length_append, List.length_take, List.length_drop]
      omega
  · intro off lenSel
    simp only [bytesExpandMutator_mutate]
    cases hcl : clampInsertLen maxSize input.length (1 + lenSel) with
    | none => exact ⟨hin, fun _ => rfl⟩
    | some len =>
      refine ⟨?_, fun h => nomatch h⟩
      have := clampInsertLen_some hcl
      simp only [length_buffer_self_copy, length_resizeZero]
      omega
  · intro off lenSel valIdx
    simp only [bytesInsertMutator_mutate]
    split
    · exact ⟨hin, fun _ => rfl⟩
    · cases hcl : clampInsertLen maxSize input.length (1 + lenSel) with
      | none => exact ⟨hin, fun _ => rfl⟩
      | some len =>
        refine ⟨?_, fun h => nomatch h⟩
        have := clampInsertLen_some hcl
        simp only [length_buffer_set, length_buffer_self_copy, length_resizeZero]
        omega
  · intro off lenSel rnd
    simp only [bytesRandInsertMutator_mutate]
    cases hcl : clampInsertLen maxSize input.length (1 + lenSel) with
    | none => exact ⟨hin, fun _ => rfl⟩
    | some len =>
      refine ⟨?_, fun h => nomatch h⟩
      have := clampInsertLen_some hcl
      simp only [length_buffer_set, length_buffer_self_copy, length_resizeZero]
      omega
  · intro off lenSel valIdx
    unfold bytesSetMutator_mutate
    split
    · exact ⟨hin, fun _ => rfl⟩
    · exact ⟨by simpa [length_buffer_set] using hin, fun h => nomatch h⟩
  · intro off lenSel rnd
    unfold bytesRandSetMutator_mutate
    split
    · exact ⟨hin, fun _ => rfl⟩
    · exact ⟨by simpa [length_buffer_set] using hin, fun h => nomatch h⟩
  · intro src dst lenSel
    unfold bytesCopyMutator_mutate
    split
    · exact ⟨hin, fun _ => rfl⟩
    · exact ⟨by simpa [length_buffer_self_copy] using hin, fun h => nomatch h⟩
  · intro off lenSel srcFrom
    simp only [bytesInsertCopyMutator_mutate]
    split
    · exact ⟨hin, fun _ => rfl⟩
    · cases hcl : clampInsertLen maxSize input.length (1 + lenSel) with
      | none => exact ⟨hin, fun _ => rfl⟩
      | some len =>
        refine ⟨?_, fun h => nomatch h⟩
        have := clampInsertLen_some hcl
        simp only [length_buffer_copy, length_buffer_self_copy, length_resizeZero]
        omega
  · intro first second lenSel
    unfold bytesSwapMutator_mutate
    split
    · exact ⟨hin, fun _ => rfl⟩
    · exact ⟨by simpa [length_buffer_copy, length_buffer_self_copy] using hin,
        fun h => nomatch h⟩
  · intro corpus current idx srcFrom off lenSel
    simp only [crossoverInsertMutator_mutate]
    split
    · exact ⟨hin, fun _ => rfl⟩
    · split
      · exact ⟨hin, fun _ => rfl⟩
      · cases hcl : clampInsertLen maxSize input.length (1 + lenSel) with
        | none => exact ⟨hin, fun _ => rfl⟩
        | some len =>
          refine ⟨?_, fun h => nomatch h⟩
          have := clampInsertLen_some hcl
          simp only [length_buffer_copy, length_buffer_self_copy, length_resizeZero]
          omega
  · intro corpus current idx srcFrom lenSel toSel
    simp only [crossoverReplaceMutator_mutate]
    split
    · exact ⟨hin, fun _ => rfl⟩
    · split
      · exact ⟨hin, fun _ => rfl⟩
      · split
        · exact ⟨hin, fun _ => rfl⟩
        · exact ⟨by simpa [length_buffer_copy] using hin, fun h => nomatch h⟩
  · intro corpus current idx split_at hsi hso hom
    simp only [spliceMutator_mutate]
    split
    · exact ⟨hin, fun _ => rfl⟩
    · cases hfd : splice_find_diffs input (corpus.getD idx []) 4 with
      | none => exact ⟨hin, fun _ => rfl⟩
      | some fl =>
        refine ⟨?_, fun h => nomatch h⟩
        simp only [List.length_append, List.length_take, List.length_drop]
        omega
  · intro tokens tokenIdx off
    simp only [tokenInsert_mutate]
    split
    · exact ⟨hin, fun _ => rfl⟩
    · cases hcl : clampInsertLen maxSize input.length (tokens.getD tokenIdx []).length with
      | none => exact ⟨hin, fun _ => rfl⟩
      | some len =>
        refine ⟨?_, fun h => nomatch h⟩
        have := clampInsertLen_some hcl
        simp only [length_buffer_copy, length_buffer_self_copy, length_resizeZero]
        omega
  · intro tokens tokenIdx off
    simp only [tokenReplace_mutate]
    split
    · exact ⟨hin, fun _ => rfl⟩
    · split
      · exact ⟨hin, fun _ => rfl⟩
      · exact ⟨by simpa [length_buffer_copy] using hin, fun h => nomatch h⟩
  · intro cmps idx off
    simp only [i2sRandReplace_mutate]
    split
    · exact ⟨hin, fun _ _ => rfl⟩
    · split
      · exact ⟨hin, fun _ _ => rfl⟩
      · cases hc : cmps.getD idx (CmpValues.U8 0 0) with
        | U8 v0 v1 =>
          dsimp only
          cases hs : i2sFindU8 v0 v1 (input.drop off) off with
          | none => exact ⟨hin, fun _ _ => rfl⟩
          | some pr =>
            obtain ⟨p, r⟩ := pr
            exact ⟨by simpa using hin, fun _ h => nomatch h⟩
        | U16 v0 v1 =>
          dsimp only
          split
          · cases hs : i2sScanW 2 v0 v1 input (List.range' off (input.length - 1 - off)) with
            | none => exact ⟨hin, fun _ _ => rfl⟩
            | some ib =>
              obtain ⟨i, bs⟩ := ib
              obtain ⟨hmem, hbl⟩ := i2sScanW_some hs
              have hi : i + 2 ≤ input.length := by
                have := List.mem_range'_1.mp hmem
                omega
              refine ⟨?_, fun _ h => nomatch h⟩
              rw [length_setSlice input i bs (by omega)]
              exact hin
          · exact ⟨hin, fun _ _ => rfl⟩
        | U32 v0 v1 =>
          dsimp only
          split
          · cases hs : i2sScanW 4 v0 v1 input (List.range' off (input.length - 3 - off)) with
            | none => exact ⟨hin, fun _ _ => rfl⟩
            | some ib =>
              obtain ⟨i, bs⟩ := ib
              obtain ⟨hmem, hbl⟩ := i2sScanW_some hs
              have hi : i + 4 ≤ input.length := by
                have := List.mem_range'_1.mp hmem
                omega
              refine ⟨?_, fun _ h => nomatch h⟩
              rw [length_setSlice input i bs (by omega)]
              exact hin
          · exact ⟨hin, fun _ _ => rfl⟩
        | U64 v0 v1 =>
          dsimp only
          split
          · cases hs : i2sScanW 8 v0 v1 input (List.range' off (input.length - 7 - off)) with
            | none => exact ⟨hin, fun _ _ => rfl⟩
            | some ib =>
              obtain ⟨i, bs⟩ := ib
              obtain ⟨hmem, hbl⟩ := i2sScanW_some hs
              have hi : i + 8 ≤ input.length := by
                have := List.mem_range'_1.mp hmem
                omega
              refine ⟨?_, fun _ h => nomatch h⟩
              rw [length_setSlice input i bs (by omega)]
              exact hin
          · exact ⟨hin, fun _ _ => rfl⟩
        | Bytes v0 v1 =>
          dsimp only
          cases hs : i2sBytesScan v0 v1 input (List.range' off (input.length - off)) with
          | none => exact ⟨hin, fun _ _ => rfl⟩
          | some out =>
            refine ⟨?_, fun hb _ => nomatch hb⟩
            rw [i2sBytesScan_some hs]
            exact hin

/-- **C1, counterexample.** `BytesDeleteMutator` with the valid random draws
`off = below(3) = 0`, `len = below(3 - 0) = 0` on the input `[1,2,3]`
(of size `≤ max_size = 1 MiB`) drains the empty range and returns `Mutated`
although the output equals the input byte-for-byte, refuting "if the result is
Mutated then I' differs from I". -/
theorem C1_counterexample :
    bytesDeleteMutator_mutate 0 0 [1, 2, 3] = (MutationResult.Mutated, [1, 2, 3]) ∧
    (0 : Nat) < 3 ∧ (0 : Nat) < 3 - 0 ∧ (3 : Nat) ≤ 1048576 := by
  decide

/-- Closed instance of the amended C1 theorem. -/
theorem C1_mutator_safety_amended_witness :
    MutatorSafe 10 [1, 2, 3] (bytesExpandMutator_mutate 10 0 3 [1, 2, 3]) ∧
    MutatorSafe 10 [1, 2, 3] (addMutator_mutate 2 1 4 1 [1, 2, 3]) ∧
    MutatorSafe 10 [1, 2, 3] (interestingMutator_mutate 2 INTERESTING_16 1 0 0 [1, 2, 3]) ∧
    MutatorSafe 10 [1, 2, 3]
      (spliceMutator_mutate [[1, 2, 3], [9, 9, 2, 4]] (some 0) 1 1 [1, 2, 3]) := by
  obtain ⟨hbf, hbfl, hbi, hbd, hbn, hbr, hadd, hint, hdel, hexp, hins, hrins, hset,
    hrset, hcopy, hinscopy, hswap, hcins, hcrep, hsplice, htins, htrep, hi2s⟩ :=
    C1_mutator_safety_amended 10 [1, 2, 3] (by decide)
  exact ⟨hexp 0 3, hadd 2 1 4 1 (by decide), hint 2 INTERESTING_16 1 0 0 (by decide),
    hsplice [[1, 2, 3], [9, 9, 2, 4]] (some 0) 1 1 (by decide) (by decide) (by decide)⟩

/-- **C10.** The in-place overwrite mutators `TokenReplace`, `BytesSet`,
`BytesRandSet` and `BytesSwap` never change the length of the input's byte
vector, whether they return `Mutated` or `Skipped`. -/
theorem C10_inplace_mutators_preserve_length :
    (∀ tokens tokenIdx off (input : List Nat),
      (tokenReplace_mutate tokens tokenIdx off input).2.length = input.length) ∧
    (∀ off lenSel valIdx (input : List Nat),
      (bytesSetMutator_mutate off lenSel valIdx input).2.length = input.length) ∧
    (∀ off lenSel rnd (input : List Nat),
      (bytesRandSetMutator_mutate off lenSel rnd input).2.length = input.length) ∧
    (∀ first second lenSel (input : List Nat),
      (bytesSwapMutator_mutate first second lenSel input).2.length = input.length) := by
  refine ⟨?_, ?_, ?_, ?_⟩
  · intro tokens tokenIdx off input
    simp only [tokenReplace_mutate]
    split
    · rfl
    · split
      · rfl
      · simp [length_buffer_copy]
  · intro off lenSel valIdx input
    unfold bytesSetMutator_mutate
    split
    · rfl
    · simp [length_buffer_set]
  · intro off lenSel rnd input
    unfold bytesRandSetMutator_mutate
    split
    · rfl
    · simp [length_buffer_set]
  · intro first second lenSel input
    unfold bytesSwapMutator_mutate
    split
    · rfl
    · simp [length_buffer_copy, length_buffer_self_copy]

theorem list_eq_of_getD (l1 l2 : List Nat) (hl : l1.length = l2.length)
    (h : ∀ j, j < l1.length → l1.getD j 0 = l2.getD j 0) : l1 = l2 := by
  apply List.ext_getElem hl
  intro i h1 h2
  have := h i h1
  rwa [List.getD_eq_getElem _ _ h1, List.getD_eq_getElem _ _ h2] at this

theorem getD_oob (l : List Nat) (j : Nat) (h : l.length ≤ j) : l.getD j 0 = 0 := by
  rw [List.getD_eq_getElem?_getD, List.getElem?_eq_none (by omega)]
  rfl

theorem getD_take (l : List Nat) (n j : Nat) :
    (l.take n).getD j 0 = if j < n then l.getD j 0 else 0 := by
  by_cases hj : j < (l.take n).length
  · have hjn : j < n := by simp at hj; omega
    have hjl : j < l.length := by simp at hj; omega
    rw [List.getD_eq_getElem _ _ hj, List.getD_eq_getElem _ _ hjl |>.symm.symm]
    simp [hjn, List.getElem_take, List.getD_eq_getElem _ _ hjl]
  · rw [getD_oob _ _ (by omega)]
    simp at hj
    split
    · rw [getD_oob _ _ (by omega)]
    · rfl

theorem getD_drop (l : List Nat) (n j : Nat) :
    (l.drop n).getD j 0 = l.getD (n + j) 0 := by
  by_cases hj : j < (l.drop n).length
  · have hjl : n + j < l.length := by simp at hj; omega
    rw [List.getD_eq_getElem _ _ hj, List.getD_eq_getElem _ _ hjl]
    simp [List.getElem_drop]
  · simp at hj
    rw [getD_oob _ _ (by simp; omega), getD_oob _ _ (by omega)]

theorem getD_append_full (l1 l2 : List Nat) (j : Nat) :
    (l1 ++ l2).getD j 0 = if j < l1.length then l1.getD j 0 else l2.getD (j - l1.length) 0 := by
  split
  · exact List.getD_append _ _ _ _ (by assumption)
  · exact List.getD_append_right _ _ _ _ (by omega)

theorem getD_replicate_zero (n j : Nat) : (List.replicate n 0).getD j 0 = 0 := by
  by_cases hj : j < n
  · rw [List.getD_eq_getElem _ _ (by simpa using hj)]
    simp
  · rw [getD_oob _ _ (by simpa using hj)]

theorem resizeZero_getD (l : List Nat) (n j : Nat) :
    (resizeZero l n).getD j 0 = if j < n ∧ j < l.length then l.getD j 0 else 0 := by
  unfold resizeZero
  split
  · rw [getD_take]
    split
    · split
      · rfl
      · rw [getD_oob _ _ (by omega)]
    · split
      · omega
      · rfl
  · rw [getD_append_full]
    split
    · split
      · rfl
      · omega
    · rw [getD_replicate_zero]
      split
      · omega
      · rfl

theorem buffer_self_copy_getD (data : List Nat) (s d len j : Nat) (hj : j < data.length) :
    (buffer_self_copy data s d len).getD j 0 =
      if d ≤ j ∧ j < d + len then data.getD (s + (j - d)) 0 else data.getD j 0 := by
  have hj' : j < (buffer_self_copy data s d len).length := by
    rw [length_buffer_self_copy]; exact hj
  rw [List.getD_eq_getElem _ _ hj']
  simp [buffer_self_copy]

theorem clampInsertLen_bounds {maxSize size len0 len : Nat} (h0 : 1 ≤ len0)
    (h : clampInsertLen maxSize size len0 = some len) : 1 ≤ len ∧ len ≤ len0 := by
  unfold clampInsertLen at h
  split at h
  · split at h
    · simp at h; omega
    · simp at h
  · simp at h; omega

/-- The exact shape of the vector produced by `BytesExpandMutator`'s
`resize` + `buffer_self_copy` pair: the prefix up to `off+len` keeps the old
bytes (zero-padded past the former end) and the old tail `[off, size)` follows,
shifted right by `len`. -/
theorem bytes_expand_shape (input : List Nat) (off len : Nat) (hoff : off ≤ input.length) :
    buffer_self_copy (resizeZero input (input.length + len)) off (off + len)
        (input.length - off) =
      input.take (off + len) ++ List.replicate (off + len - input.length) 0 ++
        input.drop off := by
  apply list_eq_of_getD
  · rw [length_buffer_self_copy, length_resizeZero]
    simp only [List.length_append, List.length_take, List.length_replicate, List.length_drop]
    omega
  · intro j hj
    rw [length_buffer_self_copy, length_resizeZero] at hj
    rw [buffer_self_copy_getD _ _ _ _ _ (by rw [length_resizeZero]; omega)]
    simp only [getD_append_full, getD_take, getD_drop, getD_replicate_zero, resizeZero_getD,
      List.length_append, List.length_take, List.length_replicate]
    split_ifs <;>
      first
        | rfl
        | omega
        | (congr 1; omega)

/-- **C5 (amended).** `BytesExpand` picks `o ∈ [0,size]` and `l ∈ [1,16]`
(clamped so `size + l ≤ max_size`) and shifts the tail `[o, size)` right by
`l`; but the newly created region `[o, o+l)` is NOT zeroed: it keeps the
input's former bytes at the positions that existed (`[o, min(o+l, size))`) and
is zero only past the former end of the input. -/
theorem C5_bytes_expand_amended (maxSize off lenSel : Nat) (input : List Nat)
    (hoff : off ≤ input.length) (hlen : lenSel < 16) :
    ∀ len, clampInsertLen maxSize input.length (1 + lenSel) = some len →
      1 ≤ len ∧ len ≤ 16 ∧ input.length + len ≤ maxSize ∧
      bytesExpandMutator_mutate maxSize off lenSel input =
        (MutationResult.Mutated,
          input.take (off + len) ++ List.replicate (off + len - input.length) 0 ++
            input.drop off) := by
  intro len hcl
  have h1 := clampInsertLen_some hcl
  have h2 := clampInsertLen_bounds (by omega) hcl
  refine ⟨h2.1, by omega, h1, ?_⟩
  simp only [bytesExpandMutator_mutate, hcl]
  rw [bytes_expand_shape input off len hoff]

/-- Closed instance of the amended C5 theorem. -/
theorem C5_bytes_expand_amended_witness :
    1 ≤ 2 ∧ 2 ≤ 16 ∧ 3 + 2 ≤ 100 ∧
    bytesExpandMutator_mutate 100 0 1 [1, 2, 3] =
      (MutationResult.Mutated,
        [1, 2, 3].take (0 + 2) ++ List.replicate (0 + 2 - 3) 0 ++ [1, 2, 3].drop 0) :=
  C5_bytes_expand_amended 100 0 1 [1, 2, 3] (by decide) (by decide) 2 (by decide)

/-- **C5, counterexample.** With the valid draws `off = 0 ∈ [0,3]`,
`lenSel = 1` (so `l = 2 ∈ [1,16]`), `max_size = 1 MiB` and the input
`[1,2,3]` with `size < max_size`, `BytesExpandMutator` produces
`[1,2,1,2,3]`: the newly created region `[0,2)` holds the former bytes
`[1,2]`, not `[0,0]`, refuting "the newly created region is zeroed". -/
theorem C5_counterexample :
    bytesExpandMutator_mutate 1048576 0 1 [1, 2, 3] =
      (MutationResult.Mutated, [1, 2, 1, 2, 3]) ∧
    [1, 2, 1, 2, 3].take 2 ≠ [0, 0] ∧
    (0 : Nat) ≤ 3 ∧ (1 : Nat) < 16 ∧ (3 : Nat) < 1048576 := by
  decide

/-- Closed instance of the C9 theorem: no-diff and singleton-diff cases. -/
theorem C9_locate_diffs_min_max_witness :
    locate_diffs [5] [5] = (-1, -1) ∧ locate_diffs [0, 1] [0, 2] = ((1 : Int), (1 : Int)) :=
  ⟨(C9_locate_diffs_min_max [5] [5]).2.1 (by decide),
   (C9_locate_diffs_min_max [0, 1] [0, 2]).2.2.2.2 1 (by decide)⟩

/-- **C7 (amended).** `SpliceMutator`, given the chosen other corpus entry,
computes the first and last diff positions over the common prefix; it returns
`Skipped` (after up to 3 retries) when no diff exists, or `first == last`, or
`last < 2` (the source's extra `l >= 2` requirement); otherwise, with a split
point drawn by `between(first_diff, last_diff)` — which by the documented
contract lies in the closed interval `[first_diff, last_diff]`, not the
half-open `(first_diff, last_diff]` — it replaces the input's tail from the
split point with the other input's tail from the same point. -/
theorem C7_splice_amended (corpus : List (List Nat)) (current : Option Nat)
    (idx split_at : Nat) (input : List Nat) (hcur : current ≠ some idx) :
    ((locate_diffs input (corpus.getD idx [])).1 < 0 ∨
     (locate_diffs input (corpus.getD idx [])).1 = (locate_diffs input (corpus.getD idx [])).2 ∨
     (locate_diffs input (corpus.getD idx [])).2 < 2 →
      spliceMutator_mutate corpus current idx split_at input =
        (MutationResult.Skipped, input)) ∧
    ((locate_diffs input (corpus.getD idx [])).1 ≠ (locate_diffs input (corpus.getD idx [])).2 →
     0 ≤ (locate_diffs input (corpus.getD idx [])).1 →
     2 ≤ (locate_diffs input (corpus.getD idx [])).2 →
     (locate_diffs input (corpus.getD idx [])).1.toNat ≤ split_at →
     split_at ≤ (locate_diffs input (corpus.getD idx [])).2.toNat →
      spliceMutator_mutate corpus current idx split_at input =
        (MutationResult.Mutated,
          input.take split_at ++ (corpus.getD idx []).drop split_at)) := by
  constructor
  · intro hcond
    simp only [spliceMutator_mutate, if_neg hcur]
    have hnc : ¬((locate_diffs input (corpus.getD idx [])).1 ≠
        (locate_diffs input (corpus.getD idx [])).2 ∧
        0 ≤ (locate_diffs input (corpus.getD idx [])).1 ∧
        2 ≤ (locate_diffs input (corpus.getD idx [])).2) := by omega
    have hnone : splice_find_diffs input (corpus.getD idx []) 4 = none := by
      simp only [splice_find_diffs, if_neg hnc]
    rw [hnone]
  · intro h1 h2 h3 _ _
    simp only [spliceMutator_mutate, if_neg hcur]
    have hsome : splice_find_diffs input (corpus.getD idx []) 4 =
        some ((locate_diffs input (corpus.getD idx [])).1.toNat,
          (locate_diffs input (corpus.getD idx [])).2.toNat) := by
      simp only [splice_find_diffs]
      rw [if_pos ⟨h1, h2, h3⟩]
    rw [hsome]

/-- Closed instance of the amended C7 theorem: one genuine splice and one
skip forced by the `last_diff >= 2` requirement. -/
theorem C7_splice_amended_witness :
    spliceMutator_mutate [[0, 1, 2, 3], [0, 9, 2, 9]] (some 0) 1 2 [0, 1, 2, 3] =
      (MutationResult.Mutated, [0, 1, 2, 3].take 2 ++ [0, 9, 2, 9].drop 2) ∧
    spliceMutator_mutate [[0, 1], [1, 0]] (some 0) 1 0 [0, 1] =
      (MutationResult.Skipped, [0, 1]) :=
  ⟨(C7_splice_amended [[0, 1, 2, 3], [0, 9, 2, 9]] (some 0) 1 2 [0, 1, 2, 3]
      (by decide)).2 (by decide) (by decide) (by decide) (by decide) (by decide),
   (C7_splice_amended [[0, 1], [1, 0]] (some 0) 1 0 [0, 1] (by decide)).1 (by decide)⟩

/-- **C7, counterexample.** The inputs `[0,1]` and the corpus entry `[1,0]`
differ at both positions of the common prefix, so `first_diff = 0` and
`last_diff = 1` exist with `first != last`; yet `SpliceMutator` returns
`Skipped` with the input unchanged (the source also requires `last_diff >= 2`),
refuting "otherwise it chooses a split point ... and replaces the input's
tail". -/
theorem C7_counterexample :
    locate_diffs [0, 1] [1, 0] = (0, 1) ∧ ((0 : Int) ≠ (1 : Int)) ∧
    spliceMutator_mutate [[0, 1], [1, 0]] (some 0) 1 0 [0, 1] =
      (MutationResult.Skipped, [0, 1]) := by
  decide

/-- `from_hex` (mutations.rs:1538): hex digit value, `IllegalArgument` otherwise. -/
def from_hex (hex : Nat) : Except String Nat :=
  if 48 ≤ hex ∧ hex ≤ 57 then .ok (hex - 48)
  else if 65 ≤ hex ∧ hex ≤ 70 then .ok (hex - 55)
  else if 97 ≤ hex ∧ hex ≤ 102 then .ok (hex - 87)
  else .error "Invalid hex character"

/-- The loop of `str_decode` (mutations.rs:1548): state machine over the bytes
with `take_next` (a backslash was just seen), `take_next_two` (0 = normal,
1 = expecting the first hex digit, 2 = expecting the second) and the running
`decoded` value. -/
def str_decode_go : List Nat → Bool → Nat → Nat → Except String (List Nat)
  | [], _, _, _ => .ok []
  | c :: rest, take_next, take_next_two, decoded =>
      if take_next_two = 1 then
        match from_hex c with
        | .error e => .error e
        | .ok v => str_decode_go rest take_next 2 (v <<< 4)
      else if take_next_two = 2 then
        match from_hex c with
        | .error e => .error e
        | .ok v => (str_decode_go rest take_next 0 (decoded + v)).map fun t => (decoded + v) :: t
      else if c ≠ 92 ∨ take_next = true then
        if take_next = true ∧ (c = 120 ∨ c = 88) then str_decode_go rest false 1 decoded
        else (str_decode_go rest false 0 decoded).map fun t => c :: t
      else str_decode_go rest true take_next_two decoded

/-- `str_decode(item)` (mutations.rs:1548): decode a dictionary token. -/
def str_decode (item : List Nat) : Except String (List Nat) :=
  str_decode_go item false 0 0

/-- `Tokens::add_token` (token_mutations.rs:55): push unless duplicate;
returns whether the token was added, with the new token list. -/
def add_token (tokens : List (List Nat)) (token : List Nat) : Bool × List (List Nat) :=
  if token ∈ tokens then (false, tokens)
  else (true, tokens ++ [token])

/-- Rust `str::trim_start` on the ASCII lines we model. -/
def isSpaceByte (c : Nat) : Bool :=
  c = 9 || c = 10 || c = 11 || c = 12 || c = 13 || c = 32

def trimStart (l : List Nat) : List Nat := l.dropWhile isSpaceByte

def trimEnd (l : List Nat) : List Nat := (l.reverse.dropWhile isSpaceByte).reverse

/-- The per-line loop of `Tokens::add_tokens_from_file`
(token_mutations.rs:76-116), over the file's lines as byte strings (the lines
of interest are ASCII, where Rust's char positions coincide with byte
positions). The error payload is the offending line (the source wraps it in
`Error::IllegalArgument` with a message prefix). -/
def add_tokens_from_lines :
    List (List Nat) → List (List Nat) → Nat → Except (List Nat) (Nat × List (List Nat))
  | [], tokens, entries => .ok (entries, tokens)
  | line :: rest, tokens, entries =>
      let line := trimEnd (trimStart line)
      if line.isEmpty ∨ line.head? = some 35 then add_tokens_from_lines rest tokens entries
      else
        match line.findIdx? (· = 34) with
        | none => .error line
        | some pos_quote =>
            if line.getD (line.length - 1) 0 ≠ 34 then .error line
            else if pos_quote + 1 > line.length - 1 then .error line
            else
              let item := (line.drop (pos_quote + 1)).take (line.length - 1 - (pos_quote + 1))
              if item.isEmpty then add_tokens_from_lines rest tokens entries
              else
                match str_decode item with
                | .error _ => .error line
                | .ok token =>
                    let r := add_token tokens token
                    add_tokens_from_lines rest r.2 (if r.1 then entries + 1 else entries)

/-- `Tokens::add_tokens_from_file`, starting with the given token list and a
zero entry counter. -/
def add_tokens_from_file (lines : List (List Nat)) (tokens : List (List Nat)) :
    Except (List Nat) (Nat × List (List Nat)) :=
  add_tokens_from_lines lines tokens 0

/-- Modelled from the spec: the repository has no token-file writer, so
"writing N tokens to a file in the documented format" is modelled by the
documented grammar (one quoted string per line, `\xNN` hex escapes, "two hex
digits, upper or lower case"): every byte is written as an uppercase hex
escape. -/
def hexDigitOf (n : Nat) : Nat := if n < 10 then 48 + n else 55 + n

/-- Modelled from the spec: the escaped body of one written token. -/
def encode_bytes : List Nat → List Nat
  | [] => []
  | b :: rest => 92 :: 120 :: hexDigitOf (b / 16) :: hexDigitOf (b % 16) :: encode_bytes rest

/-- Modelled from the spec: one line of the written token file, a quoted string. -/
def encode_token (t : List Nat) : List Nat := 34 :: encode_bytes t ++ [34]

/-- Modelled from the spec: the written token file, one line per token. -/
def write_tokens_file (ts : List (List Nat)) : List (List Nat) := ts.map encode_token

theorem str_decode_go_decoded_irrel :
    ∀ (l : List Nat) (tn : Bool) (s d d' : Nat), s ≠ 2 →
      str_decode_go l tn s d = str_decode_go l tn s d' := by
  intro l
  induction l with
  | nil => intros; rfl
  | cons c rest ih =>
    intro tn s d d' hs
    simp only [str_decode_go]
    by_cases h1 : s = 1
    · simp only [if_pos h1]
    · simp only [if_neg h1, if_neg hs]
      split
      · split
        · exact ih false 1 d d' (by omega)
        · rw [ih false 0 d d' (by omega)]
      · exact ih true s d d' hs

theorem str_decode_go_backslash (l : List Nat) (d : Nat) :
    str_decode_go (92 :: l) false 0 d = str_decode_go l true 0 d := by
  simp [str_decode_go]

theorem str_decode_go_hex_entry (x : Nat) (hx : x = 120 ∨ x = 88) (l : List Nat) (d : Nat) :
    str_decode_go (x :: l) true 0 d = str_decode_go l false 1 d := by
  rcases hx with rfl | rfl <;> simp [str_decode_go]

theorem str_decode_go_push (c : Nat) (hc1 : c ≠ 120) (hc2 : c ≠ 88) (l : List Nat) (d : Nat) :
    str_decode_go (c :: l) true 0 d = (str_decode_go l false 0 d).map fun t => c :: t := by
  simp [str_decode_go, hc1, hc2]

theorem str_decode_go_normal (c : Nat) (hc : c ≠ 92) (l : List Nat) (d : Nat) :
    str_decode_go (c :: l) false 0 d = (str_decode_go l false 0 d).map fun t => c :: t := by
  simp [str_decode_go, hc]

theorem str_decode_go_hex1_ok {h1 v1 : Nat} (hv : from_hex h1 = .ok v1) (l : List Nat)
    (tn : Bool) (d : Nat) :
    str_decode_go (h1 :: l) tn 1 d = str_decode_go l tn 2 (v1 <<< 4) := by
  simp [str_decode_go, hv]

theorem str_decode_go_hex1_err {h1 : Nat} {e : String} (hv : from_hex h1 = .error e)
    (l : List Nat) (tn : Bool) (d : Nat) :
    str_decode_go (h1 :: l) tn 1 d = .error e := by
  simp [str_decode_go, hv]

theorem str_decode_go_hex2_ok {h2 v2 : Nat} (hv : from_hex h2 = .ok v2) (l : List Nat)
    (tn : Bool) (d : Nat) :
    str_decode_go (h2 :: l) tn 2 d =
      (str_decode_go l tn 0 (d + v2)).map fun t => (d + v2) :: t := by
  simp [str_decode_go, hv]

/-- **C6 (amended).** Token decoding accepts `\xNN` (or `\XNN`) hex escapes
with two hex digits of either case, and the literal escapes `\\` and `\"`;
but a backslash followed by any character other than `x`/`X` is NOT rejected:
the backslash is silently dropped and the character emitted (so `\\` and `\"`
are just instances of that rule). Decoding is rejected with an error exactly
when a `\x`/`\X` escape is followed by a non-hex digit, and
`add_tokens_from_file` then fails with `IllegalArgument` for that line. -/
theorem C6_str_decode_amended :
    (∀ x h1 h2 v1 v2 (rest : List Nat), x = 120 ∨ x = 88 →
      from_hex h1 = .ok v1 → from_hex h2 = .ok v2 →
      str_decode (92 :: x :: h1 :: h2 :: rest) =
        (str_decode rest).map fun t => ((v1 <<< 4) + v2) :: t) ∧
    (∀ c (rest : List Nat), c ≠ 120 → c ≠ 88 →
      str_decode (92 :: c :: rest) = (str_decode rest).map fun t => c :: t) ∧
    (∀ x h1 e (rest : List Nat), x = 120 ∨ x = 88 → from_hex h1 = .error e →
      str_decode (92 :: x :: h1 :: rest) = .error e) ∧
    (∀ h1 e (rest : List (List Nat)) (tokens : List (List Nat)), from_hex h1 = .error e →
      add_tokens_from_file ([34, 92, 120, h1, 34] :: rest) tokens =
        .error [34, 92, 120, h1, 34]) := by
  refine ⟨?_, ?_, ?_, ?_⟩
  · intro x h1 h2 v1 v2 rest hx hv1 hv2
    unfold str_decode
    rw [str_decode_go_backslash, str_decode_go_hex_entry x hx,
      str_decode_go_hex1_ok hv1, str_decode_go_hex2_ok hv2,
      str_decode_go_decoded_irrel rest false 0 (v1 <<< 4 + v2) 0 (by omega)]
  · intro c rest hc1 hc2
    unfold str_decode
    rw [str_decode_go_backslash, str_decode_go_push c hc1 hc2]
  · intro x h1 e rest hx he
    unfold str_decode
    rw [str_decode_go_backslash, str_decode_go_hex_entry x hx,
      str_decode_go_hex1_err he]
  · intro h1 e rest tokens he
    have hdec : str_decode [92, 120, h1] = .error e := by
      unfold str_decode
      rw [str_decode_go_backslash, str_decode_go_hex_entry 120 (Or.inl rfl),
        str_decode_go_hex1_err he]
    simp only [add_tokens_from_file, add_tokens_from_lines]
    norm_num [trimStart, trimEnd, isSpaceByte, List.findIdx?, hdec]

instance {e a : Type} [DecidableEq e] [DecidableEq a] : DecidableEq (Except e a) := fun x y =>
  match x, y with
  | .ok u, .ok v => if h : u = v then isTrue (by rw [h]) else isFalse (by simp [h])
  | .error u, .error v => if h : u = v then isTrue (by rw [h]) else isFalse (by simp [h])
  | .ok _, .error _ => isFalse (by simp)
  | .error _, .ok _ => isFalse (by simp)

/-- Closed instance of the amended C6 theorem: `\x41` decodes to `A`, a plain
`\A` escape is accepted with the backslash dropped, and a bad hex digit makes
`add_tokens_from_file` fail for the line. -/
theorem C6_str_decode_amended_witness :
    str_decode [92, 120, 52, 49] = (str_decode []).map (fun t => ((4 <<< 4) + 1) :: t) ∧
    str_decode [92, 65, 66] = (str_decode [66]).map (fun t => (65 : Nat) :: t) ∧
    add_tokens_from_file [[34, 92, 120, 90, 34]] [] = .error [34, 92, 120, 90, 34] :=
  ⟨C6_str_decode_amended.1 120 52 49 4 1 [] (Or.inl rfl) (by decide) (by decide),
   C6_str_decode_amended.2.1 65 [66] (by decide) (by decide),
   C6_str_decode_amended.2.2.2 90 "Invalid hex character" [] [] (by decide)⟩

/-- **C6, counterexample.** The quoted string `A\AA` contains a backslash
followed by `A` (not `x`, `X`, `\` or `"`), yet `str_decode` accepts it,
silently dropping the backslash (`AAA`), and `add_tokens_from_file` accepts
the line `"A\AA"` — the repository's own test (token_mutations.rs:516)
expects exactly this. This refutes "decoding is rejected with an error". -/
theorem C6_counterexample :
    str_decode [65, 92, 65, 65] = Except.ok [65, 65, 65] ∧
    add_tokens_from_file [[34, 65, 92, 65, 65, 34]] [] =
      Except.ok (1, [[65, 65, 65]]) := by
  decide

theorem from_hex_hexDigitOf (v : Nat) (hv : v < 16) : from_hex (hexDigitOf v) = .ok v := by
  unfold from_hex hexDigitOf
  split_ifs <;> (congr 1; omega)

theorem str_decode_encode_go (t : List Nat) : (∀ b ∈ t, b < 256) →
    ∀ d, str_decode_go (encode_bytes t) false 0 d = .ok t := by
  induction t with
  | nil => intro _ d; rfl
  | cons b rest ih =>
    intro ht d
    have hb : b < 256 := ht b (by simp)
    simp only [encode_bytes]
    rw [str_decode_go_backslash, str_decode_go_hex_entry 120 (Or.inl rfl),
      str_decode_go_hex1_ok (from_hex_hexDigitOf (b / 16) (by omega)),
      str_decode_go_hex2_ok (from_hex_hexDigitOf (b % 16) (by omega)),
      ih (fun x hx => ht x (by simp [hx])) _]
    simp only [Except.map, Nat.shiftLeft_eq]
    congr 2
    omega

theorem str_decode_encode_bytes (t : List Nat) (ht : ∀ b ∈ t, b < 256) :
    str_decode (encode_bytes t) = .ok t :=
  str_decode_encode_go t ht 0

theorem trimStart_quote (l : List Nat) : trimStart (34 :: l) = 34 :: l := by
  simp [trimStart, List.dropWhile_cons, isSpaceByte]

theorem trimEnd_quote (l : List Nat) : trimEnd (l ++ [34]) = l ++ [34] := by
  unfold trimEnd
  rw [List.reverse_append]
  simp [List.dropWhile_cons, isSpaceByte]

theorem encode_bytes_ne_nil (t : List Nat) (ht : t ≠ []) : encode_bytes t ≠ [] := by
  cases t with
  | nil => exact absurd rfl ht
  | cons b rest => simp [encode_bytes]

theorem add_lines_encode_cons (t : List Nat) (rest : List (List Nat))
    (tokens : List (List Nat)) (entries : Nat) (hne : t ≠ []) (hb : ∀ b ∈ t, b < 256) :
    add_tokens_from_lines (encode_token t :: rest) tokens entries =
      add_tokens_from_lines rest (add_token tokens t).2
        (if (add_token tokens t).1 then entries + 1 else entries) := by
  have hbody : encode_token t = (34 :: encode_bytes t) ++ [34] := by
    simp [encode_token]
  have htrim : trimEnd (trimStart (encode_token t)) = encode_token t := by
    rw [show trimStart (encode_token t) = encode_token t from trimStart_quote _,
      hbody, trimEnd_quote]
  have hfind : (encode_token t).findIdx? (· = 34) = some 0 := by
    unfold encode_token
    simp [List.findIdx?]
  have hlen : (encode_token t).length = (encode_bytes t).length + 2 := by
    simp [encode_token]
  have hlast : (encode_token t).getD ((encode_token t).length - 1) 0 = 34 := by
    rw [hbody]
    rw [getD_append_full]
    simp
  have hitem : ((encode_token t).drop (0 + 1)).take ((encode_token t).length - 1 - (0 + 1)) =
      encode_bytes t := by
    rw [hbody]
    have hl2 : ((34 :: encode_bytes t) ++ [34]).length - 1 - (0 + 1) =
        (encode_bytes t).length := by
      simp
    rw [hl2]
    have hdrop : ((34 :: encode_bytes t) ++ [34]).drop (0 + 1) = encode_bytes t ++ [34] := by
      simp
    rw [hdrop]
    exact List.take_left _ _
  simp only [add_tokens_from_lines, htrim, hfind]
  rw [if_neg (by simp [encode_token]), if_neg (by rw [hlast]; simp),
    if_neg (by rw [hlen]; omega)]
  rw [hitem]
  rw [if_neg (by simpa using encode_bytes_ne_nil t hne)]
  rw [str_decode_encode_bytes t hb]

theorem add_token_nodup (tokens : List (List Nat)) (t : List Nat)
    (hnd : tokens.Nodup) : ((add_token tokens t).2).Nodup := by
  unfold add_token
  split
  · exact hnd
  · rename_i hmem
    rw [List.nodup_append]
    refine ⟨hnd, List.nodup_singleton _, ?_⟩
    intro x hx hx'
    simp only [List.mem_singleton] at hx'
    subst hx'
    exact hmem hx

theorem add_lines_nodup : ∀ (lines : List (List Nat)) (tokens : List (List Nat))
    (entries n : Nat) (res : List (List Nat)), tokens.Nodup →
    add_tokens_from_lines lines tokens entries = .ok (n, res) → res.Nodup := by
  intro lines
  induction lines with
  | nil =>
    intro tokens entries n res hnd h
    simp only [add_tokens_from_lines, Except.ok.injEq, Prod.mk.injEq] at h
    rw [← h.2]
    exact hnd
  | cons line rest ih =>
    intro tokens entries n res hnd h
    simp only [add_tokens_from_lines] at h
    split at h
    · exact ih _ _ _ _ hnd h
    · split at h
      · simp at h
      · split at h
        · simp at h
        · split at h
          · simp at h
          · split at h
            · exact ih _ _ _ _ hnd h
            · split at h
              · simp at h
              · exact ih _ _ _ _ (add_token_nodup _ _ hnd) h

theorem add_lines_write (ts : List (List Nat)) : ∀ (acc : List (List Nat)) (entries : Nat),
    (∀ t ∈ ts, t ≠ [] ∧ (∀ b ∈ t, b < 256) ∧ t ∉ acc) → ts.Pairwise (· ≠ ·) →
    add_tokens_from_lines (write_tokens_file ts) acc entries =
      .ok (entries + ts.length, acc ++ ts) := by
  induction ts with
  | nil =>
    intro acc entries _ _
    simp [write_tokens_file, add_tokens_from_lines]
  | cons t rest ih =>
    intro acc entries hts hpw
    obtain ⟨hne, hb, hnotin⟩ := hts t (by simp)
    simp only [write_tokens_file, List.map_cons]
    rw [add_lines_encode_cons t _ acc entries hne hb]
    have haddt : add_token acc t = (true, acc ++ [t]) := by
      simp [add_token, hnotin]
    rw [haddt]
    have hif : (if (true, acc ++ [t]).1 = true then entries + 1 else entries) = entries + 1 := by
      simp
    rw [hif]
    rw [show (List.map encode_token rest) = write_tokens_file rest from rfl]
    rw [ih (acc ++ [t]) (entries + 1) ?_ ((List.pairwise_cons.mp hpw).2)]
    · congr 1
      refine Prod.ext ?_ ?_
      · simp; omega
      · simp
    · intro t' ht'
      obtain ⟨h1, h2, h3⟩ := hts t' (by simp [ht'])
      refine ⟨h1, h2, ?_⟩
      simp only [List.mem_append, List.mem_singleton]
      rintro (h | rfl)
      · exact h3 h
      · exact (List.pairwise_cons.mp hpw).1 t' ht' rfl

/-- **C8 (amended).** Writing N distinct NON-EMPTY tokens to a token file in
the documented format and reading it back with `Tokens::from_tokens_file`
yields exactly those N tokens in input order (the file format cannot carry the
empty token: its line `""` is skipped on read); after any sequence of
`add_token` / `add_tokens_from_file` calls the token list contains no
duplicates, and `add_token` returns `false` leaving the list unchanged when
the token is already present. -/
theorem C8_token_file_roundtrip_amended :
    (∀ ts : List (List Nat), (∀ t ∈ ts, t ≠ [] ∧ ∀ b ∈ t, b < 256) →
      ts.Pairwise (· ≠ ·) →
      add_tokens_from_file (write_tokens_file ts) [] = .ok (ts.length, ts)) ∧
    (∀ tokens (t : List Nat), t ∈ tokens → add_token tokens t = (false, tokens)) ∧
    (∀ tokens (t : List Nat), tokens.Nodup → ((add_token tokens t).2).Nodup) ∧
    (∀ lines tokens n res, tokens.Nodup →
      add_tokens_from_file lines tokens = .ok (n, res) → res.Nodup) := by
  refine ⟨?_, ?_, ?_, ?_⟩
  · intro ts hts hpw
    unfold add_tokens_from_file
    rw [add_lines_write ts [] 0 (fun t ht => ⟨(hts t ht).1, (hts t ht).2, by simp⟩) hpw]
    simp
  · intro tokens t hmem
    simp [add_token, hmem]
  · intro tokens t hnd
    exact add_token_nodup tokens t hnd
  · intro lines tokens n res hnd h
    exact add_lines_nodup lines tokens 0 n res hnd h

/-- Closed instance of the amended C8 theorem: two distinct non-empty tokens
round-trip through the file format, and a duplicate `add_token` is refused. -/
theorem C8_token_file_roundtrip_amended_witness :
    add_tokens_from_file (write_tokens_file [[65], [66, 7]]) [] =
      .ok (2, [[65], [66, 7]]) ∧
    add_token [[65]] [65] = (false, [[65]]) :=
  ⟨C8_token_file_roundtrip_amended.1 [[65], [66, 7]] (by decide) (by decide),
   C8_token_file_roundtrip_amended.2.1 [[65]] [65] (by decide)⟩

/-- **C8, counterexample.** The empty token is a legal `Tokens` entry
(`add_token` accepts it), and the documented format writes it as the line
`""`; but reading that line back skips the empty quoted string, so writing
the 1 distinct token `[]` yields 0 tokens, refuting the round-trip claim for
arbitrary distinct tokens. -/
theorem C8_counterexample :
    add_token [] [] = (true, [[]]) ∧
    write_tokens_file [[]] = [[34, 34]] ∧
    add_tokens_from_file [[34, 34]] [] = Except.ok (0, []) ∧ (0 : Nat) ≠ 1 := by
  refine ⟨rfl, rfl, rfl, by omega⟩

/-- The `FridaOptions` fields consulted by the allocator (alloc.rs:226-245);
the backtrace-capture flag is omitted since backtraces are opaque here. -/
structure FridaOptions where
  asan_max_allocation : Nat
  asan_max_allocation_panics : Bool
  asan_max_total_allocation : Nat

/-- `AllocationMetadata` (alloc.rs:61); the two optional backtraces are
omitted (opaque handles, never inspected by the modelled operations). -/
structure AllocationMetadata where
  address : Nat
  size : Nat
  actual_size : Nat
  freed : Bool
  is_malloc_zero : Bool
deriving DecidableEq, Repr

/-- The allocator-reported error kinds of `AsanError` (asan/errors.rs) that
`Allocator` itself can emit; payloads are reduced to the offending address
(the source also attaches metadata and a backtrace). -/
inductive AsanError where
  | UnallocatedFree (ptr : Nat)
  | DoubleFree (ptr : Nat)
  | Leak (addr : Nat)
deriving DecidableEq, Repr

/-- `Allocator` (alloc.rs:31). Shadow memory contents are modelled as a total
byte map `shadow_mem`; the `shadow_pages` `RangeSet` as the covered-address
predicate `shadow_covered`; the process-global `AsanErrors` sink as the
`errors` list (`report_error` prepends). `allocation_queue` is the `BTreeMap`
as an association list in ascending key order; `allocations` is the `HashMap`
as an association list whose insert replaces the key. -/
structure Allocator where
  options : FridaOptions
  page_size : Nat
  shadow_offset : Nat
  shadow_bit : Nat
  pre_allocated_shadow : Bool
  allocations : List (Nat × AllocationMetadata)
  shadow_covered : Nat → Bool
  allocation_queue : List (Nat × List AllocationMetadata)
  largest_allocation : Nat
  total_allocation_size : Nat
  base_mapping_addr : Nat
  current_mapping_addr : Nat
  shadow_mem : Nat → Nat
  errors : List AsanError

/-- The `map_to_shadow!` macro (alloc.rs:52):
`shadow_offset + ((addr >> 3) & ((1 << (shadow_bit + 1)) - 1))`. -/
def Allocator.map_to_shadow (a : Allocator) (start : Nat) : Nat :=
  a.shadow_offset + ((start >>> 3) &&& ((1 <<< (a.shadow_bit + 1)) - 1))

/-- `Allocator::round_up_to_page` (alloc.rs:193):
`((size + page_size) / page_size) * page_size`. -/
def Allocator.round_up_to_page (a : Allocator) (size : Nat) : Nat :=
  ((size + a.page_size) / a.page_size) * a.page_size

/-- `Allocator::round_down_to_page` (alloc.rs:199). -/
def Allocator.round_down_to_page (a : Allocator) (value : Nat) : Nat :=
  (value / a.page_size) * a.page_size

/-- `Allocator::find_smallest_fit` (alloc.rs:203): scan the queue in ascending
size order; at the first class `>= size` whose list pops a metadata, take it. -/
def find_smallest_fit (queue : List (Nat × List AllocationMetadata)) (size : Nat) :
    Option AllocationMetadata × List (Nat × List AllocationMetadata) :=
  match queue with
  | [] => (none, [])
  | (current_size, list) :: rest =>
      if current_size ≥ size then
        match list.getLast? with
        | some metadata => (some metadata, (current_size, list.dropLast) :: rest)
        | none =>
            let r := find_smallest_fit rest size
            (r.1, (current_size, list) :: r.2)
      else
        let r := find_smallest_fit rest size
        (r.1, (current_size, list) :: r.2)

/-- A `memset` on the shadow byte map. -/
def memset_mem (mem : Nat → Nat) (start val len : Nat) : Nat → Nat :=
  fun x => if start ≤ x ∧ x < start + len then val else mem x

/-- `Allocator::unpoison` (alloc.rs:403): `0xFF` over `size / 8` shadow bytes,
then the partial-byte mask `(0xFF << (8 - size % 8)) & 0xFF`. -/
def unpoison_mem (mem : Nat → Nat) (start size : Nat) : Nat → Nat :=
  let mem := memset_mem mem start 0xff (size / 8)
  if size % 8 > 0 then
    memset_mem mem (start + size / 8) ((0xff <<< (8 - size % 8)) &&& 0xff) 1
  else mem

/-- `Allocator::poison` (alloc.rs:422): `0x00` over `size / 8` shadow bytes,
then `0x00` over the partial last byte. -/
def poison_mem (mem : Nat → Nat) (start size : Nat) : Nat → Nat :=
  let mem := memset_mem mem start 0x00 (size / 8)
  if size % 8 > 0 then memset_mem mem (start + size / 8) 0x00 1 else mem

/-- `Allocator::map_shadow_for_region` (alloc.rs:437): in lazy mode, `mmap`
fresh (zero) pages over every uncovered gap of the page-rounded shadow range
and record the range as covered; optionally unpoison. Returns the shadow start
and `(end - start) / 8` as in the source. -/
def Allocator.map_shadow_for_region (a : Allocator) (start end_ : Nat) (unpoison : Bool) :
    Allocator × (Nat × Nat) :=
  let shadow_mapping_start := a.map_to_shadow start
  let a :=
    if a.pre_allocated_shadow then a
    else
      let shadow_start := a.round_down_to_page shadow_mapping_start
      let shadow_end := a.round_up_to_page ((end_ - start) / 8) + a.page_size + shadow_start
      { a with
        shadow_mem := fun x =>
          if shadow_start ≤ x ∧ x < shadow_end ∧ a.shadow_covered x = false then 0
          else a.shadow_mem x,
        shadow_covered := fun x =>
          a.shadow_covered x || (decide (shadow_start ≤ x) && decide (x < shadow_end)) }
  let a :=
    if unpoison then
      { a with shadow_mem := unpoison_mem a.shadow_mem shadow_mapping_start (end_ - start) }
    else a
  (a, (shadow_mapping_start, (end_ - start) / 8))

/-- `HashMap::insert`: replace any entry with the same key. -/
def map_insert (l : List (Nat × AllocationMetadata)) (k : Nat) (m : AllocationMetadata) :
    List (Nat × AllocationMetadata) :=
  (k, m) :: l.filter fun p => p.1 != k

/-- `Allocator::alloc` (alloc.rs:217). A zero size becomes 16 with the
`malloc_zero` flag; oversize requests fail (the source panics instead when
`asan_max_allocation_panics` is set — either way no allocation happens);
the request is page-rounded plus two guard pages; a freelist hit recycles,
otherwise the region is `mmap`ed at the mapping cursor (the fixed-address
kernel call is modelled as succeeding); the shadow for
`[user_ptr, user_ptr + size)` is unpoisoned and the user pointer
`region_base + page_size` is returned. -/
def Allocator.alloc (a : Allocator) (size0 : Nat) : Option Nat × Allocator :=
  let is_malloc_zero := size0 = 0
  let size := if size0 = 0 then 16 else size0
  if size > a.options.asan_max_allocation then (none, a)
  else
    let rounded_up_size := a.round_up_to_page size + 2 * a.page_size
    if a.total_allocation_size + rounded_up_size > a.options.asan_max_total_allocation then
      (none, a)
    else
      let a := { a with total_allocation_size := a.total_allocation_size + rounded_up_size }
      let fit := find_smallest_fit a.allocation_queue rounded_up_size
      let a := { a with allocation_queue := fit.2 }
      let metaState : AllocationMetadata × Allocator :=
        match fit.1 with
        | some m =>
            ({ m with is_malloc_zero := is_malloc_zero, size := size }, a)
        | none =>
            let mapping := a.current_mapping_addr
            let a := { a with current_mapping_addr := a.current_mapping_addr + rounded_up_size }
            let a := (a.map_shadow_for_region mapping (mapping + rounded_up_size) false).1
            ({ address := mapping, size := size, actual_size := rounded_up_size,
               freed := false, is_malloc_zero := is_malloc_zero }, a)
      let metadata := metaState.1
      let a := metaState.2
      let a := { a with largest_allocation := max a.largest_allocation metadata.actual_size }
      let newShadow := unpoison_mem a.shadow_mem
        (a.map_to_shadow (metadata.address + a.page_size)) size
      let a := { a with shadow_mem := newShadow }
      let address := metadata.address + a.page_size
      let a := { a with allocations := map_insert a.allocations address metadata }
      (some address, a)

/-- `Allocator::release` (alloc.rs:301): an unknown non-null pointer reports
`UnallocatedFree` and returns; a known-but-freed one reports `DoubleFree`;
the metadata is marked freed and the shadow for `[ptr, ptr + size)` poisoned. -/
def Allocator.release (a : Allocator) (ptr : Nat) : Allocator :=
  match a.allocations.lookup ptr with
  | none =>
      if ptr ≠ 0 then { a with errors := AsanError.UnallocatedFree ptr :: a.errors }
      else a
  | some metadata =>
      let a :=
        if metadata.freed then { a with errors := AsanError.DoubleFree ptr :: a.errors }
        else a
      let shadow_mapping_start := a.map_to_shadow ptr
      let a := { a with allocations := map_insert a.allocations ptr { metadata with freed := true } }
      { a with shadow_mem := poison_mem a.shadow_mem shadow_mapping_start metadata.size }

/-- `Allocator::is_managed` (alloc.rs:491). -/
def Allocator.is_managed (a : Allocator) (ptr : Nat) : Bool :=
  decide (a.base_mapping_addr ≤ ptr) && decide (ptr < a.current_mapping_addr)

/-- `Allocator::check_for_leaks` (alloc.rs:497): report a `Leak` for every
never-freed allocation. -/
def Allocator.check_for_leaks (a : Allocator) : Allocator :=
  let leaked := a.allocations.filter fun p => p.2.freed = false
  { a with errors := leaked.foldl (fun es p => AsanError.Leak p.2.address :: es) a.errors }

/-- The allocator state `Allocator::new` builds on x86-64 Linux (alloc.rs:88):
page size 4096, shadow bit 44, shadow pre-mapped at `1 << 44`, mapping cursor
at `3 * (1 << 44)`, with the default generous limits. -/
def initAllocator : Allocator where
  options :=
    { asan_max_allocation := 1 <<< 30
      asan_max_allocation_panics := false
      asan_max_total_allocation := 1 <<< 32 }
  page_size := 4096
  shadow_offset := 1 <<< 44
  shadow_bit := 44
  pre_allocated_shadow := true
  allocations := []
  shadow_covered := fun _ => false
  allocation_queue := []
  largest_allocation := 0
  total_allocation_size := 0
  base_mapping_addr := (1 <<< 44) + (1 <<< 44) + (1 <<< 44)
  current_mapping_addr := (1 <<< 44) + (1 <<< 44) + (1 <<< 44)
  shadow_mem := fun _ => 0
  errors := []

theorem release_shadow_mem (a : Allocator) (ptr : Nat) (metadata : AllocationMetadata)
    (h : a.allocations.lookup ptr = some metadata) :
    (a.release ptr).shadow_mem = poison_mem a.shadow_mem (a.map_to_shadow ptr) metadata.size := by
  unfold Allocator.release
  rw [h]
  dsimp only
  split <;> rfl

theorem memset_mem_in (mem : Nat → Nat) (start val len x : Nat)
    (h : start ≤ x ∧ x < start + len) : memset_mem mem start val len x = val := by
  unfold memset_mem
  rw [if_pos h]

theorem memset_mem_out (mem : Nat → Nat) (start val len x : Nat)
    (h : ¬(start ≤ x ∧ x < start + len)) : memset_mem mem start val len x = mem x := by
  unfold memset_mem
  rw [if_neg h]

theorem poison_mem_zero (mem : Nat → Nat) (start size k : Nat) (hk : k < (size + 7) / 8) :
    poison_mem mem start size (start + k) = 0 := by
  simp only [poison_mem]
  by_cases hr : size % 8 > 0
  · rw [if_pos hr]
    by_cases h1 : k < size / 8
    · rw [memset_mem_out _ _ _ _ _ (by omega), memset_mem_in _ _ _ _ _ ⟨by omega, by omega⟩]
    · rw [memset_mem_in _ _ _ _ _ ⟨by omega, by omega⟩]
  · rw [if_neg hr]
    rw [memset_mem_in _ _ _ _ _ ⟨by omega, by omega⟩]

theorem release_lookup (a : Allocator) (ptr : Nat) (metadata : AllocationMetadata)
    (h : a.allocations.lookup ptr = some metadata) :
    (a.release ptr).allocations.lookup ptr = some { metadata with freed := true } := by
  unfold Allocator.release
  rw [h]
  simp [map_insert, List.lookup]

theorem release_double_free (a : Allocator) (ptr : Nat) (metadata : AllocationMetadata)
    (h : a.allocations.lookup ptr = some metadata) (hf : metadata.freed = true) :
    AsanError.DoubleFree ptr ∈ (a.release ptr).errors := by
  unfold Allocator.release
  rw [h]
  dsimp only
  rw [if_pos hf]
  simp

theorem release_unallocated (a : Allocator) (q : Nat) (hq : q ≠ 0)
    (h : a.allocations.lookup q = none) :
    AsanError.UnallocatedFree q ∈ (a.release q).errors := by
  unfold Allocator.release
  rw [h]
  simp only [if_pos hq]
  simp

theorem release_fields (a : Allocator) (ptr : Nat) :
    (a.release ptr).shadow_offset = a.shadow_offset ∧
    (a.release ptr).shadow_bit = a.shadow_bit ∧
    (a.release ptr).page_size = a.page_size := by
  unfold Allocator.release
  refine ⟨?_, ?_, ?_⟩ <;> (split <;> (split <;> rfl))

theorem map_shadow_for_region_page_size (a : Allocator) (s e : Nat) (u : Bool) :
    ((a.map_shadow_for_region s e u).1).page_size = a.page_size := by
  unfold Allocator.map_shadow_for_region
  dsimp only
  split <;> (split <;> rfl)

theorem map_shadow_for_region_shadow_offset (a : Allocator) (s e : Nat) (u : Bool) :
    ((a.map_shadow_for_region s e u).1).shadow_offset = a.shadow_offset := by
  unfold Allocator.map_shadow_for_region
  dsimp only
  split <;> (split <;> rfl)

theorem map_shadow_for_region_shadow_bit (a : Allocator) (s e : Nat) (u : Bool) :
    ((a.map_shadow_for_region s e u).1).shadow_bit = a.shadow_bit := by
  unfold Allocator.map_shadow_for_region
  dsimp only
  split <;> (split <;> rfl)

theorem map_shadow_for_region_allocations (a : Allocator) (s e : Nat) (u : Bool) :
    ((a.map_shadow_for_region s e u).1).allocations = a.allocations := by
  unfold Allocator.map_shadow_for_region
  dsimp only
  split <;> (split <;> rfl)

theorem map_shadow_for_region_cursor (a : Allocator) (s e : Nat) (u : Bool) :
    ((a.map_shadow_for_region s e u).1).current_mapping_addr = a.current_mapping_addr := by
  unfold Allocator.map_shadow_for_region
  dsimp only
  split <;> (split <;> rfl)

theorem map_shadow_for_region_total (a : Allocator) (s e : Nat) (u : Bool) :
    ((a.map_shadow_for_region s e u).1).total_allocation_size = a.total_allocation_size := by
  unfold Allocator.map_shadow_for_region
  dsimp only
  split <;> (split <;> rfl)

/-- Characterization of a successful `alloc`: the returned pointer is the
metadata address plus one guard page, the metadata is recorded under that key,
and its `size` is the request (16 for a zero request); the shadow-mapping
parameters are untouched. -/
theorem alloc_some (a : Allocator) (n p : Nat) (hp : (a.alloc n).1 = some p) :
    ∃ metadata : AllocationMetadata,
      (a.alloc n).2.allocations.lookup p = some metadata ∧
      metadata.size = (if n = 0 then 16 else n) ∧
      (a.alloc n).2.page_size = a.page_size ∧
      (a.alloc n).2.shadow_offset = a.shadow_offset ∧
      (a.alloc n).2.shadow_bit = a.shadow_bit := by
  by_cases h1 : (if n = 0 then 16 else n) > a.options.asan_max_allocation
  · simp [Allocator.alloc, h1] at hp
  · by_cases h2 : a.total_allocation_size +
        (a.round_up_to_page (if n = 0 then 16 else n) + 2 * a.page_size) >
        a.options.asan_max_total_allocation
    · simp [Allocator.alloc, h1, h2] at hp
    · cases hfit : (find_smallest_fit a.allocation_queue
          (a.round_up_to_page (if n = 0 then 16 else n) + 2 * a.page_size)).1 with
      | some m =>
        simp only [Allocator.alloc, if_neg h1, if_neg h2, hfit] at hp ⊢
        have hpe : m.address + a.page_size = p := Option.some.inj hp
        refine ⟨{ address := m.address, size := (if n = 0 then 16 else n),
                  actual_size := m.actual_size, freed := m.freed,
                  is_malloc_zero := decide (n = 0) }, ?_, ?_, ?_, ?_, ?_⟩
        · rw [← hpe]
          simp [map_insert, List.lookup]
        all_goals trivial
      | none =>
        simp only [Allocator.alloc, if_neg h1, if_neg h2, hfit,
          map_shadow_for_region_page_size, map_shadow_for_region_shadow_offset,
          map_shadow_for_region_shadow_bit, map_shadow_for_region_allocations] at hp ⊢
        have hpe : a.current_mapping_addr + a.page_size = p := Option.some.inj hp
        refine ⟨{ address := a.current_mapping_addr, size := (if n = 0 then 16 else n),
                  actual_size := a.round_up_to_page (if n = 0 then 16 else n) + 2 * a.page_size,
                  freed := false, is_malloc_zero := decide (n = 0) }, ?_, ?_, ?_, ?_, ?_⟩
        · rw [← hpe]
          simp [map_insert, List.lookup]
        all_goals trivial

/-- **C2 (amended).** After `p = alloc(n)` followed by `release(p)`, the
`ceil(n/8)` shadow bytes starting at `map_to_shadow(p)` are all zero (fully
poisoned); a second `release(p)` reports a `DoubleFree` error; and
`release(q)` for any NON-NULL pointer `q` that is not a key of the allocation
table reports `UnallocatedFree` — `release(null)` is silently ignored. -/
theorem C2_alloc_release_cycle_amended :
    (∀ (a : Allocator) (n p : Nat), (a.alloc n).1 = some p →
      (∀ k, k < (n + 7) / 8 →
        (((a.alloc n).2).release p).shadow_mem (a.map_to_shadow p + k) = 0) ∧
      AsanError.DoubleFree p ∈ ((((a.alloc n).2).release p).release p).errors) ∧
    (∀ (a : Allocator) (q : Nat), q ≠ 0 → a.allocations.lookup q = none →
      AsanError.UnallocatedFree q ∈ (a.release q).errors) := by
  constructor
  · intro a n p hp
    obtain ⟨metadata, hlk, hsize, hps, hso, hsb⟩ := alloc_some a n p hp
    have hmts : ((a.alloc n).2).map_to_shadow p = a.map_to_shadow p := by
      unfold Allocator.map_to_shadow
      rw [hso, hsb]
    constructor
    · intro k hk
      rw [release_shadow_mem ((a.alloc n).2) p metadata hlk, hmts]
      have hk' : k < (metadata.size + 7) / 8 := by
        rw [hsize]
        split <;> omega
      exact poison_mem_zero _ (a.map_to_shadow p) metadata.size k hk'
    · have hlk2 := release_lookup ((a.alloc n).2) p metadata hlk
      exact release_double_free _ p { metadata with freed := true } hlk2 rfl
  · intro a q hq h
    exact release_unallocated a q hq h

/-- Closed instance of the amended C2 theorem, on the x86-64 initial state:
`alloc(20)` then `release` zeroes the shadow (byte 2 of `ceil(20/8) = 3`
shown), a second release reports `DoubleFree`, and releasing the never
allocated non-null pointer 5 reports `UnallocatedFree`. -/
theorem C2_alloc_release_cycle_amended_witness :
    ((((initAllocator.alloc 20).2).release
        ((1 <<< 44) + (1 <<< 44) + (1 <<< 44) + 4096)).shadow_mem
      (initAllocator.map_to_shadow ((1 <<< 44) + (1 <<< 44) + (1 <<< 44) + 4096) + 2) = 0) ∧
    AsanError.DoubleFree ((1 <<< 44) + (1 <<< 44) + (1 <<< 44) + 4096) ∈
      ((((initAllocator.alloc 20).2).release
          ((1 <<< 44) + (1 <<< 44) + (1 <<< 44) + 4096)).release
        ((1 <<< 44) + (1 <<< 44) + (1 <<< 44) + 4096)).errors ∧
    AsanError.UnallocatedFree 5 ∈ (initAllocator.release 5).errors :=
  have h := C2_alloc_release_cycle_amended.1 initAllocator 20
    ((1 <<< 44) + (1 <<< 44) + (1 <<< 44) + 4096) (by rfl)
  ⟨h.1 2 (by decide), h.2,
   C2_alloc_release_cycle_amended.2 initAllocator 5 (by decide) (by rfl)⟩

/-- **C2, counterexample.** The null pointer 0 is not a key of the (empty)
allocation table, yet `release(0)` reports nothing at all (the source guards
the `UnallocatedFree` report with `!ptr.is_null()`), refuting "release(q) for
ANY pointer q that is not a key of the allocation table reports
UnallocatedFree". -/
theorem C2_counterexample :
    initAllocator.allocations.lookup 0 = none ∧
    (initAllocator.release 0).errors = [] :=
  ⟨rfl, rfl⟩

/-- **C3 (amended).** For every 8-byte-aligned address `a`, the shadow mapping
satisfies `map_to_shadow(a) = map_to_shadow(a+i)` for all `i < 8` (in
particular `i = 1` and `i = 7`); and `map_to_shadow(a+8) = map_to_shadow(a)+1`
provided `(a >> 3) mod 2^(shadow_bit+1)` is not at the wrap-around value
`2^(shadow_bit+1) - 1`. For unaligned addresses the first equality is false
(see the counterexample). -/
theorem C3_map_to_shadow_amended (al : Allocator) (addr : Nat) (hal : addr % 8 = 0) :
    (∀ i, i < 8 → al.map_to_shadow (addr + i) = al.map_to_shadow addr) ∧
    ((addr >>> 3) % 2 ^ (al.shadow_bit + 1) ≠ 2 ^ (al.shadow_bit + 1) - 1 →
      al.map_to_shadow (addr + 8) = al.map_to_shadow addr + 1) := by
  constructor
  · intro i hi
    unfold Allocator.map_to_shadow
    have h3 : (addr + i) >>> 3 = addr >>> 3 := by
      rw [Nat.shiftRight_eq_div_pow, Nat.shiftRight_eq_div_pow]
      omega
    rw [h3]
  · intro hw
    unfold Allocator.map_to_shadow
    have h8 : (addr + 8) >>> 3 = addr >>> 3 + 1 := by
      rw [Nat.shiftRight_eq_div_pow, Nat.shiftRight_eq_div_pow]
      omega
    rw [h8, Nat.one_shiftLeft, Nat.and_pow_two_sub_one_eq_mod,
      Nat.and_pow_two_sub_one_eq_mod]
    have hM : 1 < 2 ^ (al.shadow_bit + 1) := Nat.one_lt_two_pow_iff.mpr (by omega)
    have hlt : (addr >>> 3) % 2 ^ (al.shadow_bit + 1) < 2 ^ (al.shadow_bit + 1) :=
      Nat.mod_lt _ (by omega)
    have hstep : (addr >>> 3 + 1) % 2 ^ (al.shadow_bit + 1) =
        (addr >>> 3) % 2 ^ (al.shadow_bit + 1) + 1 := by
      rw [Nat.add_mod, Nat.mod_eq_of_lt hM]
      exact Nat.mod_eq_of_lt (by omega)
    rw [hstep]
    omega

/-- Closed instance of the amended C3 theorem at the aligned address 16 on the
x86-64 initial state. -/
theorem C3_map_to_shadow_amended_witness :
    initAllocator.map_to_shadow (16 + 7) = initAllocator.map_to_shadow 16 ∧
    initAllocator.map_to_shadow (16 + 8) = initAllocator.map_to_shadow 16 + 1 :=
  ⟨(C3_map_to_shadow_amended initAllocator 16 (by decide)).1 7 (by decide),
   (C3_map_to_shadow_amended initAllocator 16 (by decide)).2 (by decide)⟩

/-- **C3, counterexample.** At the (unaligned) address `a = 1` the claimed
chain `map_to_shadow(a) == map_to_shadow(a+1) == map_to_shadow(a+7)` fails:
`map_to_shadow(1) ≠ map_to_shadow(8)` because `8 >> 3 = 1 ≠ 0 = 1 >> 3`.
Shown on the x86-64 allocator (shadow bit 44). -/
theorem C3_counterexample :
    initAllocator.map_to_shadow 1 ≠ initAllocator.map_to_shadow (1 + 7) := by
  decide

/-- **C4 (amended).** For a fresh-mapping allocation (empty freelist) within
the allowed limits, `alloc(size)` reserves a region of
`round_up_to_page(size) + 2 * page_size` bytes and returns the user pointer
`region_base + page_size`; but `round_up_to_page(size)` is
`(size / page_size + 1) * page_size`, i.e. the least page multiple STRICTLY
greater than `size` when `size` is already a multiple — so for a page-multiple
request the reservation is `size + 3 * page_size`, not `size + 2 * page_size`. -/
theorem C4_alloc_reservation_amended (a : Allocator) (n : Nat)
    (hq : a.allocation_queue = []) (hps : 0 < a.page_size) (hn : 0 < n)
    (h1 : ¬ n > a.options.asan_max_allocation)
    (h2 : ¬ (a.total_allocation_size + (a.round_up_to_page n + 2 * a.page_size) >
      a.options.asan_max_total_allocation)) :
    (a.alloc n).1 = some (a.current_mapping_addr + a.page_size) ∧
    a.round_up_to_page n = (n / a.page_size + 1) * a.page_size ∧
    (a.alloc n).2.current_mapping_addr =
      a.current_mapping_addr + (a.round_up_to_page n + 2 * a.page_size) ∧
    (a.alloc n).2.total_allocation_size =
      a.total_allocation_size + (a.round_up_to_page n + 2 * a.page_size) ∧
    ((a.alloc n).2.allocations.lookup (a.current_mapping_addr + a.page_size)).map
      AllocationMetadata.actual_size = some (a.round_up_to_page n + 2 * a.page_size) := by
  have hn0 : ¬ n = 0 := by omega
  have hdiv : a.round_up_to_page n = (n / a.page_size + 1) * a.page_size := by
    unfold Allocator.round_up_to_page
    rw [Nat.add_div_right _ hps]
  refine ⟨?_, hdiv, ?_, ?_, ?_⟩ <;>
    simp [Allocator.alloc, hn0, h1, h2, hq, find_smallest_fit,
      map_shadow_for_region_page_size, map_shadow_for_region_cursor,
      map_shadow_for_region_total, map_shadow_for_region_allocations,
      map_insert, List.lookup]

/-- Closed instance of the amended C4 theorem: `alloc(100)` on the x86-64
initial state. -/
theorem C4_alloc_reservation_amended_witness :
    (initAllocator.alloc 100).1 =
      some (initAllocator.current_mapping_addr + initAllocator.page_size) ∧
    initAllocator.round_up_to_page 100 =
      (100 / initAllocator.page_size + 1) * initAllocator.page_size ∧
    (initAllocator.alloc 100).2.current_mapping_addr =
      initAllocator.current_mapping_addr +
        (initAllocator.round_up_to_page 100 + 2 * initAllocator.page_size) ∧
    (initAllocator.alloc 100).2.total_allocation_size =
      initAllocator.total_allocation_size +
        (initAllocator.round_up_to_page 100 + 2 * initAllocator.page_size) ∧
    ((initAllocator.alloc 100).2.allocations.lookup
        (initAllocator.current_mapping_addr + initAllocator.page_size)).map
      AllocationMetadata.actual_size =
      some (initAllocator.round_up_to_page 100 + 2 * initAllocator.page_size) :=
  C4_alloc_reservation_amended initAllocator 100 rfl (by decide) (by decide)
    (by decide) (by decide)

/-- **C4, counterexample.** `alloc(4096)` with page size 4096 reserves
`16384 = 4096 + 3 * 4096` bytes (`round_up_to_page(4096) = 8192`), not
`4096 + 2 * 4096 = 12288` as the claim's "least multiple of the page size"
rounding would give: `((size + page_size) / page_size) * page_size` adds a
whole extra page when `size` is already page-aligned. -/
theorem C4_counterexample :
    ((initAllocator.alloc 4096).2.allocations.lookup
        ((1 <<< 44) + (1 <<< 44) + (1 <<< 44) + 4096)).map
      AllocationMetadata.actual_size = some 16384 ∧
    (16384 : Nat) ≠ 4096 + 2 * 4096 :=
  ⟨rfl, by decide⟩
